/-
Verification of the sct-pipeline/sci-lesion-segmentation dataset-conversion
pipeline against its natural-language specification.

The development shallowly embeds the Python sources:
  * `dataset-conversion/convert_bids_to_nnUNetv2_praxis_multi-channel.py`
    (argument handling, site extraction, cohort splitting, label fusion glue,
    layout emission, manifest writing), and
  * `midsagittal_measures/02_read_xls_files.py` (`fetch_subject`).

Pure string manipulation (Python `str.replace`, `os.path.join`,
`os.path.basename`, the `re.search` patterns actually used) is embedded as
executable Lean functions over `List Char` / `String`.  The stateful `main`
procedure is embedded as a pure function from the parsed arguments and a
file-existence oracle to a trace of file-system events plus an
`Except`-style outcome.  External collaborators that the repository imports
but does not contain (`utils.create_multi_channel_label`,
`sklearn.train_test_split`) are modelled from the specification; their
doc comments say so explicitly.
-/
import Mathlib

namespace SciLesionSeg

/-! ## Python string primitives -/

/-- `List`-level test that `p` is a prefix of `l` (mirrors Python's
`str.startswith` / the anchoring step of `re` matching). -/
def isPrefixList : List Char → List Char → Bool
  | [], _ => true
  | _ :: _, [] => false
  | p :: ps, c :: cs => p == c && isPrefixList ps cs

/-- Core of Python `str.replace`: scan left to right; at each position, if
the nonempty pattern `p` matches, emit the replacement `r` and skip over
the match (non-overlapping), otherwise keep the character.  The `skip`
argument counts characters of an already-emitted match still to be
consumed, which keeps the recursion structural on the scanned list. -/
def replaceCore (p r : List Char) : List Char → Nat → List Char
  | [], _ => []
  | _ :: rest, skip + 1 => replaceCore p r rest skip
  | c :: rest, 0 =>
    if p.isEmpty = false && isPrefixList p (c :: rest) then
      r ++ replaceCore p r rest (p.length - 1)
    else
      c :: replaceCore p r rest 0

/-- Python `s.replace(pat, rep)` for a nonempty pattern (all occurrences,
left to right, non-overlapping).  The script only ever replaces nonempty
literals (`_lesion`, `/derivatives/labels`, `.nii.gz`, ...). -/
def pyReplace (s pat rep : String) : String :=
  ⟨replaceCore pat.data rep.data s.data 0⟩

/-- Last path component of `l` (characters after the final `'/'`). -/
def lastComponent (l : List Char) : List Char :=
  (l.reverse.takeWhile (fun c => c ≠ '/')).reverse

/-- Python `os.path.basename` for the paths the script handles
(no trailing-slash input at the call sites). -/
def pyBasename (s : String) : String :=
  ⟨lastComponent s.data⟩

/-- Python `os.path.basename(os.path.normpath(s))` restricted to the
canonical dataset paths the script receives: `normpath` only strips
trailing slashes there, after which `basename` takes the last component. -/
def basenameNormpath (s : String) : String :=
  ⟨lastComponent ((s.data.reverse.dropWhile (fun c => c == '/')).reverse)⟩

/-- Python `os.path.join(a, b)`: if `b` is absolute it wins, otherwise it is
appended to `a` with a separator (`a` has no trailing slash at the call
sites). -/
def pyJoin (a b : String) : String :=
  if isPrefixList ['/'] b.data then b else a ++ ("/" ++ b)

/-- Python `f"{n:03d}"`: decimal representation left-padded with zeros to
width 3. -/
def pad3 (n : Nat) : String :=
  if n < 10 then "00" ++ toString n
  else if n < 100 then "0" ++ toString n
  else toString n

/-! ## Regex models

`fetch_subject` (02_read_xls_files.py) uses `re.search('sub-(.*?)[_/]', s)`
and `re.search('ses-(.*?)[_/]', s)`; `find_site_in_path`
(convert_bids_to_nnUNetv2_praxis_multi-channel.py) uses
`re.search(r'site_\d{3}', s)`.  We embed exactly the semantics of these two
pattern shapes: leftmost match, with `.` matching any character except
newline and `*?` lazy (terminating the token at the first delimiter after
the marker). -/

/-- A delimiter of the `[_/]` character class. -/
def isDelim (c : Char) : Bool := c == '_' || c == '/'

/-- Try to complete a match of `(.*?)[_/]` on `l` (the text after the
marker): returns the lazily-matched middle, i.e. the characters before the
first delimiter, provided no newline intervenes (`.` does not match
newline); `none` when the match cannot complete at this start position. -/
def scanMiddle : List Char → Option (List Char)
  | [] => none
  | c :: rest =>
    if isDelim c then some []
    else if c == '\n' then none
    else (scanMiddle rest).map (fun m => c :: m)

/-- `re.search(marker ++ '(.*?)[_/]', l)`, returning `group(0)` minus the
final delimiter (which is what `fetch_subject` keeps after `[:-1]`):
leftmost start position wins; at each start the lazy middle stops at the
first delimiter. -/
def reSearchToken (m : List Char) : List Char → Option (List Char)
  | [] => none
  | c :: rest =>
    if isPrefixList m (c :: rest) then
      match scanMiddle ((c :: rest).drop m.length) with
      | some mid => some (m ++ mid)
      | none => reSearchToken m rest
    else reSearchToken m rest

/-- The `group(0)[:-1] if match else ""` step of `fetch_subject`. -/
def tokenToStr : Option (List Char) → String
  | some tok => String.mk tok
  | none => ""

/-- `fetch_subject` from `midsagittal_measures/02_read_xls_files.py`:
subject ID via the search for `sub-(.*?)[_/]` (keeping `group(0)[:-1]`,
empty string when there is no match), session ID likewise with `ses-`. -/
def fetch_subject (filenamePath : String) : String × String :=
  (tokenToStr (reSearchToken "sub-".data filenamePath.data),
   tokenToStr (reSearchToken "ses-".data filenamePath.data))

/-- One step of `re.search(r'site_\d{3}', l)`: does `l` begin with
`site_` followed by three decimal digits?  If so return those 8 chars. -/
def siteHere (l : List Char) : Option (List Char) :=
  if isPrefixList "site_".data l then
    match l.drop 5 with
    | a :: b :: c :: _ =>
      if a.isDigit && b.isDigit && c.isDigit then
        some ("site_".data ++ [a, b, c])
      else none
    | _ => none
  else none

/-- `re.search(r'site_\d{3}', l)`: leftmost occurrence. -/
def siteSearch : List Char → Option (List Char)
  | [] => none
  | c :: rest =>
    match siteHere (c :: rest) with
    | some t => some t
    | none => siteSearch rest

/-- `find_site_in_path` from the conversion script: the matched
`site_\d{3}` token, or `None` when absent. -/
def find_site_in_path (path : String) : Option String :=
  (siteSearch path.data).map String.mk

/-- Python renders `f"...{x}..."` for `x : Option` as the payload or the
literal text `None`; used for the test-set directory names, which embed the
result of `find_site_in_path`. -/
def optStr : Option String → String
  | some s => s
  | none => "None"

/-! ## Cohort splitting -/

/-- `ceil(q * n)` for a nonnegative rational ratio `q`, computed with plain
Nat arithmetic (so concrete runs evaluate inside the kernel): with
`q = num/den` in lowest terms, `ceil(num * n / den) = (num*n + den - 1) / den`. -/
def ratCeilMulNat (q : ℚ) (n : Nat) : Nat :=
  (q.num.toNat * n + (q.den - 1)) / q.den

/-- Modelled from the spec: `sklearn.model_selection.train_test_split` is an
external collaborator (§6: "a randomized-split primitive taking a list, a
ratio, and a seed and returning two disjoint sublists").  With
`random_state=seed` the real primitive is a deterministic function of
(list, test_size, seed); we model it as a seed-keyed rotation of the input
list whose first `ceil(test_size * n)` elements form the test sublist and
whose remaining elements form the train sublist, returned in the order
`(train, test)` as in the source call site. -/
def train_test_split (files : List String) (testFrac : ℚ) (seed : Nat) :
    List String × List String :=
  let n := files.length
  let nTest := min n (ratCeilMulNat testFrac n)
  let perm := files.rotate seed
  (perm.drop nTest, perm.take nTest)

/-- One BIDS dataset root as `main` sees it: its `--path-data` entry and the
file enumerations the script performs on it.  `lesionGlob` is the result of
`root.rglob('*_lesion.nii.gz')` (full path strings, enumeration order);
`allowGlob` is the concatenation of the five
`root.rglob('sub-que..._T2w.nii.gz')` calls that `main` performs only for a
dataset whose basename is `site_014`. -/
structure Dataset where
  path : String
  lesionGlob : List String
  allowGlob : List String
  deriving DecidableEq

/-- The parsed command-line arguments of the conversion script
(`get_parser`): `--path-data` (with each source's file enumerations
attached), `--path-out` (assumed already absolute, standing in for
`os.path.abspath`), `--dataset-name`, `--dataset-number`, `--seed` and
`--split` (a list of rationals standing in for the float ratios). -/
structure Args where
  pathData : List Dataset
  pathOut : String
  datasetName : String
  datasetNumber : Nat
  seed : Nat
  split : List ℚ
  deriving DecidableEq

/-! ## File-system events and run errors -/

/-- Tag of a `logger.info` entry.  Only the missing-companion message has a
distinguished identity in the spec; every other `logger.info` call of the
script is tagged `info`. -/
inductive LogTag
  | missingSeg (subName : String)
  | info
  deriving DecidableEq

/-- Observable file-system effects of a run: directory creation
(`Path.mkdir`), creation of the log file (`logger.add`), a file write
(`shutil.copyfile` destination, `nib.save`, `Image.save`, yaml/json dump),
a log entry, and the console note of the unresolved-assignment branch. -/
inductive Ev
  | mkdir (p : String)
  | openLog (p : String)
  | logMsg (t : LogTag)
  | fwrite (p : String)
  | skipNote (p : String)
  deriving DecidableEq

/-- The uncaught Python exceptions `main` can die of: a `ValueError` from
destructuring `args.split` when it does not have exactly two entries, the
explicit `ValueError` for a nonexistent source path, the `NameError` when
the `site_014` branch reads `tr_subs` before any other dataset assigned it,
and the `TypeError` from `shutil.copyfile(None, ...)` when
`get_multi_channel_label` returned `None`. -/
inductive RunErr
  | unpackErr (n : Nat)
  | invalidSourcePath (p : String)
  | nameErr
  | typeErr
  deriving DecidableEq

/-! ## Python dicts (keys and values, insertion semantics) -/

/-- Keys of an association list standing in for a Python dict. -/
def dictKeys (d : List (String × String)) : List String := d.map Prod.fst

/-- `d[k] = v` on a Python dict: overwrite in place when the key exists,
append otherwise. -/
def dictSet (d : List (String × String)) (k v : String) :
    List (String × String) :=
  if (dictKeys d).contains k then
    d.map (fun kv => if kv.1 = k then (k, v) else kv)
  else d ++ [(k, v)]

/-- `d.update(kvs)` on a Python dict. -/
def dictUpd (d : List (String × String)) :
    List (String × String) → List (String × String)
  | [] => d
  | kv :: rest => dictUpd (dictSet d kv.1 kv.2) rest

/-- `d[k]` for a key known to be present (the script only subscripts
`test_images` under an `elif subject_label_file in test_images` guard). -/
def dictGet (d : List (String × String)) (k : String) : String :=
  match d.find? (fun kv => kv.1 == k) with
  | some kv => kv.2
  | none => ""

/-! ## Assignment phase (`main`, the loop over `args.path_data`) -/

/-- The accumulating state of the dataset loop: `train_images`,
`test_images` (path-keyed dicts) and `all_lesion_files`. -/
structure Assignment where
  trainImages : List (String × String)
  testImages : List (String × String)
  allLesionFiles : List String
  deriving DecidableEq

/-- One iteration of the dataset loop.  A dataset whose
`basename(normpath(path))` is not `site_014` extends `all_lesion_files`
with its `*_lesion.nii.gz` files and splits them with `train_test_split`;
the `site_014` branch instead routes the five hard-coded `sub-que...`
files to the test set — and, because the common `train_images.update`
line still runs, reuses the *stale* `tr_subs` of the previous iteration
(a `NameError` when `site_014` comes first).  `prevTr` threads that stale
variable. -/
def assignStep (testFrac : ℚ) (seed : Nat)
    (st : Assignment) (prevTr : Option (List String)) (ds : Dataset) :
    Except RunErr (Assignment × Option (List String)) :=
  let root := ds.path
  if basenameNormpath ds.path ≠ "site_014" then
    let (trSubs, teSubs) := train_test_split ds.lesionGlob testFrac seed
    .ok ({ trainImages :=
             dictUpd st.trainImages (trSubs.map (fun sub => (sub, pyJoin root sub)))
           testImages :=
             dictUpd st.testImages (teSubs.map (fun sub => (sub, pyJoin root sub)))
           allLesionFiles := st.allLesionFiles ++ ds.lesionGlob },
          some trSubs)
  else
    match prevTr with
    | none => .error RunErr.nameErr
    | some trSubs =>
      let teSubs := ds.allowGlob
      .ok ({ trainImages :=
               dictUpd st.trainImages (trSubs.map (fun sub => (sub, pyJoin root sub)))
             testImages :=
               dictUpd st.testImages (teSubs.map (fun sub => (sub, pyJoin root sub)))
             allLesionFiles := st.allLesionFiles ++ teSubs },
            some trSubs)

/-- The dataset loop itself. -/
def assignLoop (testFrac : ℚ) (seed : Nat) :
    Assignment → Option (List String) → List Dataset → Except RunErr Assignment
  | st, _, [] => .ok st
  | st, prevTr, ds :: rest =>
    match assignStep testFrac seed st prevTr ds with
    | .error e => .error e
    | .ok (st2, prevTr2) => assignLoop testFrac seed st2 prevTr2 rest

/-- The whole assignment phase, from empty state. -/
def assignPhase (testFrac : ℚ) (seed : Nat) (datasets : List Dataset) :
    Except RunErr Assignment :=
  assignLoop testFrac seed ⟨[], [], []⟩ none datasets

/-! ## Label fusion (`get_multi_channel_label`) -/

/-- Modelled from the spec: `create_multi_channel_label` is implemented in
the repository's `utils.py`, which the conversion script imports but which
is not part of this snapshot.  §4.2 fixes its contract: binarize both
masks at `thr` (voxel value ≥ thr ⇒ foreground); a background voxel keeps
0, a spinal-cord-only voxel gets 1, and every lesion-foreground voxel gets
the secondary value 2 — a lesion voxel falling outside the cord mask is
folded into the cord region (source comment: "makes sure that the lesion
seg is part of the spinal cord seg") rather than dropped.  `ι` is the
common voxel grid of the co-registered volumes. -/
def create_multi_channel_label {ι : Type} (lesionMask scMask : ι → ℚ)
    (thr : ℚ) : ι → ℕ :=
  fun v =>
    if thr ≤ lesionMask v then 2
    else if thr ≤ scMask v then 1
    else 0

/-- The fused label as `get_multi_channel_label` leaves it on disk: the
`nib.save` destination path and the saved voxel data. -/
structure FusedLabel (ι : Type) where
  savePath : String
  volume : ι → ℕ

/-- `get_multi_channel_label` from the conversion script, at the level of
one subject's volumes: derive the companion cord-mask path by replacing
`_lesion` with `_seg`; if that file is absent, log and return `None`;
otherwise build the fused volume with `create_multi_channel_label` and
save it under the `_seg-lesion` path. -/
def get_multi_channel_label {ι : Type} (fs : String → Bool)
    (subjectLabelFile : String) (lesionMask scMask : ι → ℚ) (thr : ℚ) :
    Option (FusedLabel ι) :=
  let subjectSegFile := pyReplace subjectLabelFile "_lesion" "_seg"
  if fs subjectSegFile then
    some { savePath := pyReplace subjectLabelFile "_lesion" "_seg-lesion"
           volume := create_multi_channel_label lesionMask scMask thr }
  else none

/-- The path/event face of `get_multi_channel_label` as the run model uses
it: voxel data plays no role in the emitted layout, so only the existence
check, the log entry, the `nib.save` write and the returned path are
tracked.  Mirrors the source exactly: on a missing `_seg` companion it
logs and yields `none`; otherwise it writes the `_seg-lesion` file and
yields its path. -/
def gmcEvents (fs : String → Bool) (subjectLabelFile subName : String) :
    List Ev × Option String :=
  let subjectSegFile := pyReplace subjectLabelFile "_lesion" "_seg"
  if fs subjectSegFile then
    let combined := pyReplace subjectLabelFile "_lesion" "_seg-lesion"
    ([Ev.fwrite combined], some combined)
  else
    ([Ev.logMsg (LogTag.missingSeg subName)], none)

/-! ## Emission phase (`main`, the loop over `all_lesion_files`) -/

/-- State of the emission loop: the two counters, the per-split list of
counter values actually embedded into destination filenames (ghost view of
the `{ctr:03d}` field), the `train_niftis`/`test_nifitis` lists, and the
event trace of the loop. -/
structure EmitState where
  trainCtr : Nat
  testCtr : Nat
  trainEmits : List Nat
  testEmits : List Nat
  trainNiftis : List String
  testNiftis : List String
  evs : List Ev
  deriving DecidableEq

/-- Processing of one `subject_label_file`.  Returns the successor state
(whose trace extends the input trace) and, when the subject dies of the
`shutil.copyfile(None, ...)` `TypeError`, the error that aborts the run.
The source order is kept: counter increment and `niftis.append` first,
then `get_multi_channel_label` (which may log-and-return-`None`), then the
channel-0 copy, then the two remaining copies and the three RPI
reorientation saves. -/
def emitStep (dname : String) (fs : String → Bool) (outDir : String)
    (asg : Assignment) (st : EmitState) (lbl : String) :
    EmitState × Option RunErr :=
  let imgFile := pyReplace (pyReplace lbl "/derivatives/labels" "") "_lesion" ""
  if (dictKeys asg.trainImages).contains lbl then
    let ctr := st.trainCtr + 1
    let subName := pyReplace (pyBasename imgFile) ".nii.gz" ""
    let base := dname ++ "_" ++ subName ++ "_" ++ pad3 ctr
    let dest0 := pyJoin (pyJoin outDir "imagesTr") (base ++ "_0000.nii.gz")
    let dest1 := pyJoin (pyJoin outDir "imagesTr") (base ++ "_0001.nii.gz")
    let destL := pyJoin (pyJoin outDir "labelsTr") (base ++ ".nii.gz")
    let st1 := { st with
      trainCtr := ctr
      trainEmits := st.trainEmits ++ [ctr]
      trainNiftis := st.trainNiftis ++ [pyBasename imgFile] }
    match gmcEvents fs lbl subName with
    | (gevs, none) =>
      ({ st1 with evs := st.evs ++ gevs ++ [Ev.fwrite dest0] }, some RunErr.typeErr)
    | (gevs, some _scFile) =>
      ({ st1 with evs := st.evs ++ gevs ++
           [Ev.fwrite dest0, Ev.fwrite dest1, Ev.fwrite destL,
            Ev.fwrite dest0, Ev.fwrite dest1, Ev.fwrite destL] }, none)
  else if (dictKeys asg.testImages).contains lbl then
    let ctr := st.testCtr + 1
    let siteStr := optStr (find_site_in_path (dictGet asg.testImages lbl))
    let subName := pyReplace (pyBasename imgFile) ".nii.gz" ""
    let base := dname ++ "_" ++ subName ++ "_" ++ pad3 ctr
    let dest0 := pyJoin (pyJoin outDir ("imagesTs_" ++ siteStr)) (base ++ "_0000.nii.gz")
    let dest1 := pyJoin (pyJoin outDir ("imagesTs_" ++ siteStr)) (base ++ "_0001.nii.gz")
    let destL := pyJoin (pyJoin outDir ("labelsTs_" ++ siteStr)) (base ++ ".nii.gz")
    let st1 := { st with
      testCtr := ctr
      testEmits := st.testEmits ++ [ctr]
      testNiftis := st.testNiftis ++ [pyBasename imgFile] }
    match gmcEvents fs lbl subName with
    | (gevs, none) =>
      ({ st1 with evs := st.evs ++ gevs ++ [Ev.fwrite dest0] }, some RunErr.typeErr)
    | (gevs, some _scFile) =>
      ({ st1 with evs := st.evs ++ gevs ++
           [Ev.fwrite dest0, Ev.fwrite dest1, Ev.fwrite destL,
            Ev.fwrite dest0, Ev.fwrite dest1, Ev.fwrite destL] }, none)
  else
    ({ st with evs := st.evs ++ [Ev.skipNote lbl] }, none)

/-- The emission loop; an error from a step aborts the rest of the loop
(and, upstream, the whole run) while keeping the trace so far. -/
def emitLoop (dname : String) (fs : String → Bool) (outDir : String)
    (asg : Assignment) : EmitState → List String → EmitState × Option RunErr
  | st, [] => (st, none)
  | st, lbl :: rest =>
    match emitStep dname fs outDir asg st lbl with
    | (st2, some e) => (st2, some e)
    | (st2, none) => emitLoop dname fs outDir asg st2 rest

/-! ## The whole run (`main`) -/

/-- The seed-suffixed output root
`Dataset{num}_{name}Seed{seed}` under `--path-out`. -/
def outDirOf (args : Args) : String :=
  pyJoin args.pathOut
    ("Dataset" ++ toString args.datasetNumber ++ "_" ++ args.datasetName
      ++ "Seed" ++ toString args.seed)

/-- The effects `main` performs before validating the source paths: the
three training directories and the log file. -/
def initialEvents (args : Args) : List Ev :=
  [Ev.mkdir (outDirOf args),
   Ev.mkdir (pyJoin (outDirOf args) "imagesTr"),
   Ev.mkdir (pyJoin (outDirOf args) "labelsTr"),
   Ev.openLog (pyJoin (outDirOf args) "logs.txt")]

/-- The first `--path-data` entry that fails `os.path.exists` (the check
loop raises on it). -/
def firstMissing (fs : String → Bool) : List Dataset → Option Dataset
  | [] => none
  | ds :: rest => if fs ds.path then firstMissing fs rest else some ds

/-- `set(find_site_in_path(p) for p in args.path_data if ...)`: the distinct
sites of the source paths.  Python's set-iteration order is
hash-dependent; first-occurrence order stands in for it (no claim depends
on the order). -/
def sitesOf (datasets : List Dataset) : List String :=
  (datasets.filterMap (fun ds => find_site_in_path ds.path)).dedup

/-- `create_directories` over the sites: one `imagesTs_*`/`labelsTs_*` pair
per site. -/
def siteDirEvents (outDir : String) (sites : List String) : List Ev :=
  sites.flatMap (fun s =>
    [Ev.mkdir (pyJoin outDir ("imagesTs_" ++ s)),
     Ev.mkdir (pyJoin outDir ("labelsTs_" ++ s))])

/-- The block of `logger.info` bookkeeping between the assignment and
emission loops (subject counts, per-site counts, dataset versions); all
content-free for the claims, tagged `info`. -/
def preLoopLogs (datasets : List Dataset) (sites : List String) : List Ev :=
  [Ev.logMsg LogTag.info, Ev.logMsg LogTag.info]
    ++ sites.map (fun _ => Ev.logMsg LogTag.info)
    ++ datasets.map (fun _ => Ev.logMsg LogTag.info)

/-- Lexicographic insertion used to model Python `sorted`. -/
def insertSorted (x : String) : List String → List String
  | [] => [x]
  | y :: ys => if (compare x y).isLE then x :: y :: ys else y :: insertSorted x ys

/-- Python `sorted` on a list of strings. -/
def sortStr : List String → List String
  | [] => []
  | x :: xs => insertSorted x (sortStr xs)

/-- The outcome of a completed run: final counters, the counter values
embedded in emitted filenames per split, the nifti lists, the split
dicts and discovered-file list, and the two sorted lists persisted into
`train_test_split_seed<seed>.yaml`. -/
structure RunOut where
  trainCtr : Nat
  testCtr : Nat
  trainEmits : List Nat
  testEmits : List Nat
  trainNiftis : List String
  testNiftis : List String
  trainImages : List (String × String)
  testImages : List (String × String)
  allLesionFiles : List String
  yamlTrain : List String
  yamlTest : List String
  deriving DecidableEq

/-- The conversion script's `main`, as a pure function from parsed
arguments and a file-existence oracle to the event trace and the outcome.
Phases in source order: destructure `args.split`; create the output root,
`imagesTr`, `labelsTr` and the log file; validate the source paths
(raising `ValueError` on the first missing one); create the per-site test
directories; run the dataset (assignment) loop; log the counts; run the
emission loop; write the yaml split record and `dataset.json`. -/
def mainRun (args : Args) (fs : String → Bool) :
    List Ev × Except RunErr RunOut :=
  match args.split with
  | [_trainFrac, testFrac] =>
    let outDir := outDirOf args
    let evs0 := initialEvents args
    match firstMissing fs args.pathData with
    | some ds => (evs0, Except.error (RunErr.invalidSourcePath ds.path))
    | none =>
      let sites := sitesOf args.pathData
      let evs1 := evs0 ++ siteDirEvents outDir sites
      match assignPhase testFrac args.seed args.pathData with
      | .error e => (evs1, Except.error e)
      | .ok asg =>
        let evs2 := evs1 ++ preLoopLogs args.pathData sites
        let st0 : EmitState := ⟨0, 0, [], [], [], [], []⟩
        match emitLoop args.datasetName fs outDir asg st0 asg.allLesionFiles with
        | (st, some e) => (evs2 ++ st.evs, Except.error e)
        | (st, none) =>
          let evs3 := evs2 ++ st.evs ++ [Ev.logMsg LogTag.info]
            ++ [Ev.fwrite (pyJoin outDir
                  ("train_test_split_seed" ++ toString args.seed ++ ".yaml")),
                Ev.fwrite (pyJoin outDir "dataset.json")]
          (evs3, Except.ok
            { trainCtr := st.trainCtr
              testCtr := st.testCtr
              trainEmits := st.trainEmits
              testEmits := st.testEmits
              trainNiftis := st.trainNiftis
              testNiftis := st.testNiftis
              trainImages := asg.trainImages
              testImages := asg.testImages
              allLesionFiles := asg.allLesionFiles
              yamlTrain := sortStr st.trainNiftis
              yamlTest := sortStr st.testNiftis })
  | l => ([], Except.error (RunErr.unpackErr l.length))

/-! ## Specification-side predicates and helpers used by the theorems -/

/-- A legal lazy middle of a `(.*?)[_/]` match: no delimiter (the lazy star
stops at the first one) and no newline (`.` does not match newline). -/
def goodMid (mid : List Char) : Prop := ∀ c ∈ mid, isDelim c = false ∧ c ≠ '\n'

/-- The text `l` contains the marker `m` followed by a delimiter-free,
newline-free middle and then a `[_/]` delimiter: exactly the condition
under which `re.search` finds the token pattern. -/
def tokenDecomp (m l : List Char) : Prop :=
  ∃ pre mid d post,
    l = pre ++ (m ++ mid) ++ d :: post ∧ goodMid mid ∧ isDelim d = true

/-- The text `l` contains `site_` immediately followed by three decimal
digits. -/
def siteDecomp (l : List Char) : Prop :=
  ∃ pre a b c post, l = pre ++ ("site_".data ++ [a, b, c]) ++ post
    ∧ a.isDigit = true ∧ b.isDigit = true ∧ c.isDigit = true

/-- `[1, 2, ..., n]`: the dense counter sequence the filename counters are
compared against. -/
def rangeFrom1 (n : Nat) : List Nat := (List.range n).map (fun k => k + 1)

/-- The files a dataset contributes to `all_lesion_files`: the hard-coded
allow-list for a `site_014` source, its `*_lesion.nii.gz` enumeration
otherwise. -/
def contribOf (ds : Dataset) : List String :=
  if basenameNormpath ds.path = "site_014" then ds.allowGlob else ds.lesionGlob

/-- Pairwise disjointness of the contributions of a dataset list
(distinct sources hold distinct files). -/
def contribsDisjointB : List Dataset → Bool
  | [] => true
  | d :: rest =>
    ((contribOf d).all (fun f => rest.all (fun e => !((contribOf e).contains f))))
      && contribsDisjointB rest

/-- View of the threaded stale `tr_subs` variable as a list. -/
def optList : Option (List String) → List String
  | some l => l
  | none => []

/-- The path a file-system event touches, when it touches one. -/
def evPath : Ev → Option String
  | Ev.mkdir p => some p
  | Ev.openLog p => some p
  | Ev.fwrite p => some p
  | Ev.logMsg _ => none
  | Ev.skipNote _ => none

/-- Number of file writes in a trace. -/
def countFwrites : List Ev → Nat
  | [] => 0
  | Ev.fwrite _ :: r => countFwrites r + 1
  | _ :: r => countFwrites r

/-- Number of missing-companion-file log entries in a trace. -/
def countMissingLogs : List Ev → Nat
  | [] => 0
  | Ev.logMsg (LogTag.missingSeg _) :: r => countMissingLogs r + 1
  | _ :: r => countMissingLogs r

/-- The frame property of one touched path: it lies inside the output
tree, or it is the `_seg-lesion` companion path derived from a discovered
subject file (the only write into the sources). -/
def goodWrite (outDir : String) (allRef : List String) (p : String) : Prop :=
  isPrefixList outDir.data p.data = true
  ∨ ∃ lbl ∈ allRef, p = pyReplace lbl "_lesion" "_seg-lesion"

/-- Bool view of a successful outcome. -/
def exceptOkB : Except RunErr RunOut → Bool
  | Except.ok _ => true
  | Except.error _ => false

/-- Outcome of a completed run (with a default for failed ones). -/
def getRunOut (dflt : RunOut) : Except RunErr RunOut → RunOut
  | Except.ok o => o
  | Except.error _ => dflt

/-- Default outcome record. -/
def emptyRunOut : RunOut := ⟨0, 0, [], [], [], [], [], [], [], [], []⟩

/-- Result of a completed assignment phase (with a default). -/
def getAssignment (dflt : Assignment) : Except RunErr Assignment → Assignment
  | Except.ok a => a
  | Except.error _ => dflt

/-- Default assignment record. -/
def emptyAssignment : Assignment := ⟨[], [], []⟩

/-! ## Concrete fixtures for counterexamples and witnesses -/

/-- The rational 4/5, given directly in lowest terms so that concrete runs
kernel-evaluate (the Mathlib division instances on `ℚ` do not reduce). -/
def r45 : ℚ := ⟨4, 5, by norm_num, by norm_num⟩

/-- The rational 1/5. -/
def r15 : ℚ := ⟨1, 5, by norm_num, by norm_num⟩

/-- The rational 9/10. -/
def r910 : ℚ := ⟨9, 10, by norm_num, by norm_num⟩

/-- The rational 3/10. -/
def r310 : ℚ := ⟨3, 10, by norm_num, by norm_num⟩

/-- The rational 7/10. -/
def r710 : ℚ := ⟨7, 10, by norm_num, by norm_num⟩

/-- The rational 1. -/
def r1 : ℚ := ⟨1, 1, by norm_num, by norm_num⟩

/-- A two-subject `site_003` source. -/
def exDs3 : Dataset :=
  { path := "/d/site_003"
    lesionGlob := ["/d/site_003/derivatives/labels/sub-a/anat/sub-a_T2w_lesion.nii.gz",
                   "/d/site_003/derivatives/labels/sub-b/anat/sub-b_T2w_lesion.nii.gz"]
    allowGlob := [] }

/-- A `site_014` source holding one discovered `_lesion` file outside the
hard-coded allow-list and one allow-listed `sub-que...` file. -/
def exDs14 : Dataset :=
  { path := "/d/site_014"
    lesionGlob := ["/d/site_014/derivatives/labels/sub-que003/anat/sub-que003_acq-sagittal_run-01_T2w_lesion.nii.gz"]
    allowGlob := ["/d/site_014/sub-que002/anat/sub-que002_acq-sagittal_run-01_T2w.nii.gz"] }

/-- Baseline arguments: one healthy source, ratios 0.8/0.2, seed 42. -/
def exArgs : Args :=
  { pathData := [exDs3]
    pathOut := "/out"
    datasetName := "D"
    datasetNumber := 1
    seed := 42
    split := [r45, r15] }

/-- File-existence oracle under which every queried path exists. -/
def fsTrue : String → Bool := fun _ => true

/-- A constant all-foreground lesion mask on a one-voxel grid. -/
def w1les : Unit → ℚ := fun _ => 1

/-- A constant all-background cord mask on a one-voxel grid. -/
def w1sc : Unit → ℚ := fun _ => 0

/-- The fused label the engine produces from `w1les`/`w1sc` at 0.5. -/
def w1out : FusedLabel Unit :=
  { savePath := pyReplace "a_lesion.nii.gz" "_lesion" "_seg-lesion"
    volume := create_multi_channel_label w1les w1sc (1/2) }

/-- A configured source directory that does not exist on disk. -/
def exDsMissing : Dataset := { path := "/nope", lesionGlob := [], allowGlob := [] }

/-- Arguments naming the nonexistent source. -/
def c7args : Args := { exArgs with pathData := [exDsMissing] }

/-- Oracle on which only `/nope` is missing. -/
def fsNope : String → Bool := fun p => !(p == "/nope")

/-- Arguments whose split ratios are positive but sum to 1.2. -/
def c8args : Args := { exArgs with split := [r910, r310] }

/-- A one-subject `site_003` source. -/
def c2ds : Dataset :=
  { path := "/d/site_003"
    lesionGlob := ["/d/site_003/derivatives/labels/sub-a/anat/sub-a_T2w_lesion.nii.gz"]
    allowGlob := [] }

/-- Arguments over the one-subject source. -/
def c2args : Args := { exArgs with pathData := [c2ds] }

/-- Oracle on which exactly the `_seg` companion of that subject is
absent. -/
def c2fs : String → Bool :=
  fun p => !(p == "/d/site_003/derivatives/labels/sub-a/anat/sub-a_T2w_seg.nii.gz")

/-- Arguments over the `site_003` and `site_014` sources together. -/
def c10args : Args := { exArgs with pathData := [exDs3, exDs14] }

/-! ## Generic lemmas about the string primitives -/

theorem isPrefixList_iff (p : List Char) : ∀ l : List Char,
    isPrefixList p l = true ↔ ∃ r, l = p ++ r := by
  induction p with
  | nil => intro l; simp [isPrefixList]
  | cons c cs ih =>
    intro l
    cases l with
    | nil => simp [isPrefixList]
    | cons d ds =>
      simp only [isPrefixList, Bool.and_eq_true, beq_iff_eq, ih,
        List.cons_append, List.cons.injEq]
      constructor
      · rintro ⟨rfl, r, rfl⟩
        exact ⟨r, rfl, rfl⟩
      · rintro ⟨r, rfl, rfl⟩
        exact ⟨rfl, r, rfl⟩

theorem isPrefixList_append (p r : List Char) :
    isPrefixList p (p ++ r) = true :=
  (isPrefixList_iff p (p ++ r)).mpr ⟨r, rfl⟩

theorem scanMiddle_sound : ∀ l mid, scanMiddle l = some mid →
    goodMid mid ∧ ∃ d post, l = mid ++ d :: post ∧ isDelim d = true := by
  intro l
  induction l with
  | nil => intro mid h; simp [scanMiddle] at h
  | cons c rest ih =>
    intro mid h
    simp only [scanMiddle] at h
    by_cases hd : isDelim c = true
    · rw [if_pos hd] at h
      cases h
      exact ⟨by simp [goodMid], c, rest, rfl, hd⟩
    · rw [if_neg hd] at h
      by_cases hn : c = '\n'
      · rw [if_pos (by simp [hn])] at h
        exact absurd h (by simp)
      · rw [if_neg (by simp [hn])] at h
        rw [Option.map_eq_some'] at h
        obtain ⟨m2, hm2, rfl⟩ := h
        obtain ⟨hg, d, post, rfl, hdd⟩ := ih m2 hm2
        refine ⟨?_, d, post, rfl, hdd⟩
        intro x hx
        rcases List.mem_cons.mp hx with rfl | hx2
        · exact ⟨by simpa using hd, hn⟩
        · exact hg x hx2

theorem scanMiddle_complete : ∀ mid d post, goodMid mid → isDelim d = true →
    ∃ m2, scanMiddle (mid ++ d :: post) = some m2 := by
  intro mid
  induction mid with
  | nil =>
    intro d post _ hd
    exact ⟨[], by simp [scanMiddle, hd]⟩
  | cons c cs ih =>
    intro d post hg hd
    have hc := hg c (by simp)
    obtain ⟨m2, hm2⟩ := ih d post (fun x hx => hg x (by simp [hx])) hd
    refine ⟨c :: m2, ?_⟩
    have hn2 : (c == '\n') = false := by simp [hc.2]
    simp [scanMiddle, hc.1, hn2, hm2]

theorem reSearchToken_sound (m : List Char) : ∀ l tok,
    reSearchToken m l = some tok →
    ∃ pre mid d post, l = pre ++ (m ++ mid) ++ d :: post ∧ goodMid mid
      ∧ isDelim d = true ∧ tok = m ++ mid := by
  intro l
  induction l with
  | nil => intro tok h; simp [reSearchToken] at h
  | cons c rest ih =>
    intro tok h
    by_cases hp : isPrefixList m (c :: rest) = true
    · cases hsm : scanMiddle ((c :: rest).drop m.length) with
      | some mid =>
        simp only [reSearchToken, hp, if_true, hsm] at h
        cases h
        obtain ⟨r, hr⟩ := (isPrefixList_iff m (c :: rest)).mp hp
        rw [hr, List.drop_left] at hsm
        obtain ⟨hg, d, post, rfl, hdd⟩ := scanMiddle_sound r mid hsm
        exact ⟨[], mid, d, post, by simpa using hr, hg, hdd, rfl⟩
      | none =>
        simp only [reSearchToken, hp, if_true, hsm] at h
        obtain ⟨pre, mid, d, post, hrest, hg, hdd, htok⟩ := ih tok h
        exact ⟨c :: pre, mid, d, post, by simp [hrest], hg, hdd, htok⟩
    · simp only [reSearchToken, hp] at h
      rw [if_neg (by simp [hp])] at h
      obtain ⟨pre, mid, d, post, hrest, hg, hdd, htok⟩ := ih tok h
      exact ⟨c :: pre, mid, d, post, by simp [hrest], hg, hdd, htok⟩

theorem reSearchToken_complete (m : List Char) : ∀ l,
    tokenDecomp m l → ∃ tok, reSearchToken m l = some tok := by
  intro l
  induction l with
  | nil =>
    rintro ⟨pre, mid, d, post, hl, -, -⟩
    exact absurd hl.symm (by simp)
  | cons c rest ih =>
    rintro ⟨pre, mid, d, post, hl, hg, hd⟩
    by_cases hp : isPrefixList m (c :: rest) = true
    · cases hsm : scanMiddle ((c :: rest).drop m.length) with
      | some mid2 =>
        exact ⟨m ++ mid2, by simp [reSearchToken, hp, hsm]⟩
      | none =>
        cases pre with
        | nil =>
          obtain ⟨r, hr⟩ := (isPrefixList_iff m (c :: rest)).mp hp
          have hreq : r = mid ++ d :: post := by
            have := hl
            simp only [List.nil_append, List.append_assoc] at this
            rw [hr] at this
            exact List.append_cancel_left this
          obtain ⟨m2, hm2⟩ := scanMiddle_complete mid d post hg hd
          rw [hr, List.drop_left, hreq] at hsm
          rw [hm2] at hsm
          exact absurd hsm (by simp)
        | cons c2 pre2 =>
          have hrest : tokenDecomp m rest := by
            refine ⟨pre2, mid, d, post, ?_, hg, hd⟩
            simpa using congrArg List.tail hl
          obtain ⟨tok, htok⟩ := ih hrest
          exact ⟨tok, by simp [reSearchToken, hp, hsm, htok]⟩
    · cases pre with
      | nil =>
        exfalso
        apply hp
        rw [hl]
        simpa [List.append_assoc] using
          isPrefixList_append m (mid ++ d :: post)
      | cons c2 pre2 =>
        have hrest : tokenDecomp m rest := by
          refine ⟨pre2, mid, d, post, ?_, hg, hd⟩
          simpa using congrArg List.tail hl
        obtain ⟨tok, htok⟩ := ih hrest
        refine ⟨tok, ?_⟩
        simp only [reSearchToken]
        rw [if_neg (by simp [hp])]
        exact htok

theorem siteHere_complete (a b c : Char) (post : List Char)
    (ha : a.isDigit = true) (hb : b.isDigit = true) (hc : c.isDigit = true) :
    siteHere ("site_".data ++ ([a, b, c] ++ post))
      = some ("site_".data ++ [a, b, c]) := by
  have h5 : ("site_".data ++ ([a, b, c] ++ post)).drop 5 = [a, b, c] ++ post := by
    rw [show (5 : Nat) = ("site_".data).length from rfl]
    exact List.drop_left _ _
  unfold siteHere
  rw [if_pos (isPrefixList_append _ _), h5]
  simp [ha, hb, hc]

theorem siteHere_sound (l t : List Char) (h : siteHere l = some t) :
    ∃ a b c rest, l = "site_".data ++ ([a, b, c] ++ rest)
      ∧ a.isDigit = true ∧ b.isDigit = true ∧ c.isDigit = true
      ∧ t = "site_".data ++ [a, b, c] := by
  unfold siteHere at h
  by_cases hp : isPrefixList "site_".data l = true
  · rw [if_pos hp] at h
    obtain ⟨r, rfl⟩ := (isPrefixList_iff _ l).mp hp
    have h5 : ("site_".data ++ r).drop 5 = r := by
      rw [show (5 : Nat) = ("site_".data).length from rfl]
      exact List.drop_left _ _
    rw [h5] at h
    rcases r with - | ⟨a, - | ⟨b, - | ⟨c, rest⟩⟩⟩
    · exact absurd h (by simp)
    · exact absurd h (by simp)
    · exact absurd h (by simp)
    · have h2 : (if (a.isDigit && b.isDigit && c.isDigit) = true
          then some ("site_".data ++ [a, b, c]) else none) = some t := h
      by_cases hd : (a.isDigit && b.isDigit && c.isDigit) = true
      · rw [if_pos hd] at h2
        cases h2
        simp only [Bool.and_eq_true] at hd
        exact ⟨a, b, c, rest, rfl, hd.1.1, hd.1.2, hd.2, rfl⟩
      · rw [if_neg hd] at h2
        exact absurd h2 (by simp)
  · rw [if_neg hp] at h
    exact absurd h (by simp)

theorem siteSearch_sound : ∀ l t, siteSearch l = some t →
    ∃ pre a b c post, l = pre ++ ("site_".data ++ [a, b, c]) ++ post
      ∧ a.isDigit = true ∧ b.isDigit = true ∧ c.isDigit = true
      ∧ t = "site_".data ++ [a, b, c] := by
  intro l
  induction l with
  | nil => intro t h; simp [siteSearch] at h
  | cons c0 rest ih =>
    intro t h
    cases hsh : siteHere (c0 :: rest) with
    | some t0 =>
      simp only [siteSearch, hsh] at h
      cases h
      obtain ⟨a, b, c, r2, hl, ha, hb, hc, ht⟩ := siteHere_sound _ _ hsh
      exact ⟨[], a, b, c, r2, by simp [hl], ha, hb, hc, ht⟩
    | none =>
      simp only [siteSearch, hsh] at h
      obtain ⟨pre, a, b, c, post, hrest, ha, hb, hc, ht⟩ := ih t h
      exact ⟨c0 :: pre, a, b, c, post, by simp [hrest], ha, hb, hc, ht⟩

theorem siteSearch_complete : ∀ l, siteDecomp l → ∃ t, siteSearch l = some t := by
  intro l
  induction l with
  | nil =>
    rintro ⟨pre, a, b, c, post, hl, -, -, -⟩
    exact absurd hl.symm (by simp)
  | cons c0 rest ih =>
    rintro ⟨pre, a, b, c, post, hl, ha, hb, hc⟩
    cases hsh : siteHere (c0 :: rest) with
    | some t0 => exact ⟨t0, by simp [siteSearch, hsh]⟩
    | none =>
      cases pre with
      | nil =>
        exfalso
        have hl2 : c0 :: rest = "site_".data ++ ([a, b, c] ++ post) := by
          simpa [List.append_assoc] using hl
        rw [hl2, siteHere_complete a b c post ha hb hc] at hsh
        exact absurd hsh (by simp)
      | cons c2 pre2 =>
        have hrest : siteDecomp rest :=
          ⟨pre2, a, b, c, post, by simpa using congrArg List.tail hl, ha, hb, hc⟩
        obtain ⟨t, ht⟩ := ih hrest
        exact ⟨t, by simp [siteSearch, hsh, ht]⟩

theorem tokenToStr_spec (m : List Char) (hm : m ≠ []) (l : List Char) :
    ((tokenToStr (reSearchToken m l) = "") ↔ ¬ tokenDecomp m l)
    ∧ (tokenToStr (reSearchToken m l) ≠ "" → ∃ pre mid d post,
         l = pre ++ (m ++ mid) ++ d :: post ∧ goodMid mid ∧ isDelim d = true
         ∧ tokenToStr (reSearchToken m l) = String.mk (m ++ mid)) := by
  constructor
  · constructor
    · intro he hdec
      obtain ⟨tok, htok⟩ := reSearchToken_complete m l hdec
      obtain ⟨pre, mid, d, post, hl, hg, hd, rfl⟩ := reSearchToken_sound m l _ htok
      rw [htok] at he
      have hnil : m ++ mid = [] := by
        simpa [tokenToStr, String.ext_iff] using he
      exact hm (List.append_eq_nil.mp hnil).1
    · intro hdec
      cases htok : reSearchToken m l with
      | some tok =>
        obtain ⟨pre, mid, d, post, hl, hg, hd, -⟩ := reSearchToken_sound m l tok htok
        exact absurd ⟨pre, mid, d, post, hl, hg, hd⟩ hdec
      | none => simp [tokenToStr]
  · intro hne
    cases htok : reSearchToken m l with
    | none => exact absurd (by simp [tokenToStr, htok]) hne
    | some tok =>
      obtain ⟨pre, mid, d, post, hl, hg, hd, rfl⟩ := reSearchToken_sound m l tok htok
      exact ⟨pre, mid, d, post, hl, hg, hd, by simp [tokenToStr, htok]⟩

/-! ## Claim C9 -/

/-- Claim C9: subject and session key extraction matches tokens beginning
at the literal markers `sub-` and `ses-` and terminating at the next
underscore or path separator, and absence of a match yields an empty key
rather than an error; site extraction uses the separate pattern `site_`
followed by exactly three digits, applied to the full path, and yields an
empty (`None`, treated as ungrouped) result rather than an error when no
site token is present. -/
theorem c9_resolver_token_extraction (s : String) :
    (((fetch_subject s).1 = "") ↔ ¬ tokenDecomp "sub-".data s.data)
  ∧ ((fetch_subject s).1 ≠ "" → ∃ pre mid d post,
       s.data = pre ++ ("sub-".data ++ mid) ++ d :: post ∧ goodMid mid
       ∧ isDelim d = true ∧ (fetch_subject s).1 = String.mk ("sub-".data ++ mid))
  ∧ (((fetch_subject s).2 = "") ↔ ¬ tokenDecomp "ses-".data s.data)
  ∧ ((fetch_subject s).2 ≠ "" → ∃ pre mid d post,
       s.data = pre ++ ("ses-".data ++ mid) ++ d :: post ∧ goodMid mid
       ∧ isDelim d = true ∧ (fetch_subject s).2 = String.mk ("ses-".data ++ mid))
  ∧ ((find_site_in_path s = none) ↔ ¬ siteDecomp s.data)
  ∧ (∀ t, find_site_in_path s = some t → ∃ pre a b c post,
       s.data = pre ++ ("site_".data ++ [a, b, c]) ++ post
       ∧ a.isDigit = true ∧ b.isDigit = true ∧ c.isDigit = true
       ∧ t = String.mk ("site_".data ++ [a, b, c])) := by
  have hsub := tokenToStr_spec "sub-".data (by decide) s.data
  have hses := tokenToStr_spec "ses-".data (by decide) s.data
  refine ⟨hsub.1, hsub.2, hses.1, hses.2, ?_, ?_⟩
  · constructor
    · intro hn hdec
      obtain ⟨t, ht⟩ := siteSearch_complete s.data hdec
      simp [find_site_in_path, ht] at hn
    · intro hdec
      cases ht : siteSearch s.data with
      | some t =>
        obtain ⟨pre, a, b, c, post, hl, ha, hb, hc, -⟩ := siteSearch_sound s.data t ht
        exact absurd ⟨pre, a, b, c, post, hl, ha, hb, hc⟩ hdec
      | none => simp [find_site_in_path, ht]
  · intro t hft
    simp only [find_site_in_path, Option.map_eq_some'] at hft
    obtain ⟨t0, ht0, rfl⟩ := hft
    obtain ⟨pre, a, b, c, post, hl, ha, hb, hc, rfl⟩ := siteSearch_sound s.data t0 ht0
    exact ⟨pre, a, b, c, post, hl, ha, hb, hc, rfl⟩

/-- Witness for C9: on the concrete filename `sub-001.nii.gz` the subject
key comes out empty, and the theorem turns that evaluation into the
absence of any marker-delimiter token occurrence in the input. -/
theorem c9_resolver_token_extraction_w :
    ¬ tokenDecomp "sub-".data "sub-001.nii.gz".data :=
  (c9_resolver_token_extraction "sub-001.nii.gz").1.mp rfl

/-! ## Claim C1 -/

/-- Claim C1: whenever `get_multi_channel_label` (threshold 0.5) produces a
fused label, the saved volume satisfies the containment invariant: a voxel
carrying the secondary (lesion) value 2 also counts as spinal-cord
membership (value at least 1), every lesion-foreground voxel keeps the
lesion value (none is dropped), and a lesion-foreground voxel outside the
binarized cord mask is folded into the cord region rather than dropped;
the volume is saved under the `_seg-lesion` companion path.  The fusion
body is modelled from the spec (its `utils.py` is not in the snapshot). -/
theorem c1_fused_label_containment {ι : Type} (fs : String → Bool)
    (lbl : String) (lesionMask scMask : ι → ℚ) (out : FusedLabel ι)
    (hsome : get_multi_channel_label fs lbl lesionMask scMask (1/2) = some out) :
    (∀ v, out.volume v = 2 → 1 ≤ out.volume v)
    ∧ (∀ v, 1/2 ≤ lesionMask v → out.volume v = 2)
    ∧ (∀ v, 1/2 ≤ lesionMask v → ¬ ((1 : ℚ)/2 ≤ scMask v) → 1 ≤ out.volume v)
    ∧ out.savePath = pyReplace lbl "_lesion" "_seg-lesion" := by
  unfold get_multi_channel_label at hsome
  by_cases hfs : fs (pyReplace lbl "_lesion" "_seg") = true
  · rw [if_pos hfs] at hsome
    cases hsome
    refine ⟨?_, ?_, ?_, rfl⟩
    · intro v h2
      show 1 ≤ create_multi_channel_label lesionMask scMask (1/2) v
      have h3 : create_multi_channel_label lesionMask scMask (1/2) v = 2 := h2
      rw [h3]
      omega
    · intro v hl
      simp only [create_multi_channel_label]
      rw [if_pos hl]
    · intro v hl _
      simp only [create_multi_channel_label]
      rw [if_pos hl]
      omega
  · rw [if_neg hfs] at hsome
    exact absurd hsome (by simp)

/-- Witness for C1: on a one-voxel grid with an all-foreground lesion mask
and an all-background cord mask, the fused volume carries the lesion value
and is thereby inside the cord region. -/
theorem c1_fused_label_containment_w :
    w1out.volume () = 2 ∧ 1 ≤ w1out.volume () :=
  ⟨(c1_fused_label_containment fsTrue "a_lesion.nii.gz" w1les w1sc w1out rfl).2.1 ()
      (by norm_num [w1les]),
   (c1_fused_label_containment fsTrue "a_lesion.nii.gz" w1les w1sc w1out rfl).2.2.1 ()
      (by norm_num [w1les]) (by norm_num [w1sc])⟩

/-! ## Claim C2 -/

/-- Claim C2 (code bug): on a subject whose `_seg` companion is absent the
run does write exactly one missing-companion log entry, but instead of
skipping the subject it copies the channel-0 image (one emitted output
file) and then dies of the `TypeError` raised by
`shutil.copyfile(None, ...)`; the split record is never written at all. -/
theorem c2_missing_companion_crash :
    (mainRun c2args c2fs).2 = Except.error RunErr.typeErr
    ∧ countMissingLogs (mainRun c2args c2fs).1 = 1
    ∧ countFwrites (mainRun c2args c2fs).1 = 1
    ∧ Ev.fwrite (pyJoin (outDirOf c2args)
        ("train_test_split_seed" ++ toString c2args.seed ++ ".yaml"))
        ∉ (mainRun c2args c2fs).1 := by
  refine ⟨rfl, rfl, rfl, by decide⟩

/-! ## Claim C4 -/

/-- Claim C4: the cohort split is deterministic — two runs with identical
seed, identical source list (same on-disk contents and enumeration order)
and identical split ratios produce the identical train/test assignment,
and two whole runs over identical arguments and identical file systems
produce identical traces and outcomes.  The hard-coded `site_014` override
rules live inside `assignStep`, so identical inputs imply identical
override behaviour. -/
theorem c4_deterministic_split :
    (∀ (d1 d2 : List Dataset) (r1 r2 : ℚ) (s1 s2 : Nat), d1 = d2 → r1 = r2 →
        s1 = s2 → assignPhase r1 s1 d1 = assignPhase r2 s2 d2)
    ∧ (∀ (a1 a2 : Args) (fs1 fs2 : String → Bool), a1 = a2 → fs1 = fs2 →
        mainRun a1 fs1 = mainRun a2 fs2) := by
  constructor
  · intro d1 d2 r1 r2 s1 s2 h1 h2 h3
    subst h1; subst h2; subst h3; rfl
  · intro a1 a2 fs1 fs2 h1 h2
    subst h1; subst h2; rfl

/-- Witness for C4: the assignment over the concrete `site_003` source at
seed 42 and ratio 0.2 is reproducible. -/
theorem c4_deterministic_split_w :
    assignPhase r15 42 [exDs3] = assignPhase r15 42 [exDs3] :=
  (c4_deterministic_split).1 [exDs3] [exDs3] r15 r15 42 42 rfl rfl rfl

/-! ## Claim C7 -/

theorem firstMissing_of_missing (fs : String → Bool) : ∀ (l : List Dataset)
    (d : Dataset), d ∈ l → fs d.path = false →
    ∃ ds, firstMissing fs l = some ds ∧ ds ∈ l ∧ fs ds.path = false := by
  intro l
  induction l with
  | nil => intro d hd; simp at hd
  | cons x rest ih =>
    intro d hd hmiss
    by_cases hx : fs x.path = true
    · rcases List.mem_cons.mp hd with rfl | hd2
      · rw [hx] at hmiss; cases hmiss
      · obtain ⟨ds, h1, h2, h3⟩ := ih d hd2 hmiss
        exact ⟨ds, by simp [firstMissing, hx, h1], by simp [h2], h3⟩
    · exact ⟨x, by simp [firstMissing, hx], by simp, by simpa using hx⟩

/-- Claim C7 (corrected): when a configured source directory does not
exist, the run does fail with the invalid-source error naming the first
missing path — but only after output has been created under the output
path: at failure the trace is exactly the creation of the output root,
`imagesTr`, `labelsTr` and the log file. -/
theorem c7_invalid_source_after_output (args : Args) (fs : String → Bool)
    (a b : ℚ) (d : Dataset) (hsplit : args.split = [a, b])
    (hd : d ∈ args.pathData) (hmiss : fs d.path = false) :
    ∃ ds, ds ∈ args.pathData ∧ fs ds.path = false ∧
      mainRun args fs = (initialEvents args,
        Except.error (RunErr.invalidSourcePath ds.path)) := by
  obtain ⟨ds, h1, h2, h3⟩ := firstMissing_of_missing fs args.pathData d hd hmiss
  refine ⟨ds, h2, h3, ?_⟩
  unfold mainRun
  rw [hsplit]
  simp [h1]

/-- Witness for C7: the concrete run over the nonexistent source `/nope`
fails with the invalid-source error while its trace already holds the four
output-creating events. -/
theorem c7_invalid_source_after_output_w :
    ∃ ds, ds ∈ c7args.pathData ∧ fsNope ds.path = false ∧
      mainRun c7args fsNope = (initialEvents c7args,
        Except.error (RunErr.invalidSourcePath ds.path)) :=
  c7_invalid_source_after_output c7args fsNope r45 r15 exDsMissing rfl
    (by decide) (by decide)

/-- Counterexample for C7 as stated: the run over the nonexistent source
fails, yet the output root directory and the log file were already created
under the output path before the failure. -/
theorem c7_output_created_before_failure :
    (mainRun c7args fsNope).2 = Except.error (RunErr.invalidSourcePath "/nope")
    ∧ Ev.mkdir (outDirOf c7args) ∈ (mainRun c7args fsNope).1
    ∧ Ev.openLog (pyJoin (outDirOf c7args) "logs.txt") ∈ (mainRun c7args fsNope).1 := by
  refine ⟨rfl, by decide, by decide⟩

/-! ## Claim C8 -/

/-- Claim C8 (corrected): the program performs no ratio validation at all.
The only caller-level check on `--split` is the destructuring into exactly
two values (a `ValueError` if the count differs, before any output); the
first ratio (train) is never read — replacing it changes nothing — and
the second (test) is handed to the splitter unrenormalized. -/
theorem c8_no_ratio_validation (args : Args) (fs : String → Bool) :
    (∀ (a b a2 : ℚ), args.split = [a, b] →
        mainRun { args with split := [a2, b] } fs = mainRun args fs)
    ∧ (args.split.length ≠ 2 →
        mainRun args fs = ([], Except.error (RunErr.unpackErr args.split.length))) := by
  constructor
  · intro a b a2 hsplit
    rcases args with ⟨pd, po, dn, dnum, sd, sp⟩
    simp only at hsplit
    subst hsplit
    rfl
  · intro hlen
    rcases args with ⟨pd, po, dn, dnum, sd, sp⟩
    simp only at hlen
    rcases sp with - | ⟨x, sp2⟩
    · rfl
    · rcases sp2 with - | ⟨y, sp3⟩
      · rfl
      · rcases sp3 with - | ⟨z, sp4⟩
        · simp at hlen
        · rfl

/-- Witness for C8: replacing the unused train ratio 0.8 by 0.7 leaves the
whole run unchanged, and a one-element split list dies of the unpack
error. -/
theorem c8_no_ratio_validation_w :
    mainRun { exArgs with split := [r710, r15] } fsTrue = mainRun exArgs fsTrue
    ∧ mainRun { exArgs with split := [r1] } fsTrue
        = ([], Except.error (RunErr.unpackErr 1)) := by
  constructor
  · exact (c8_no_ratio_validation exArgs fsTrue).1 r45 r15 r710 rfl
  · have h := (c8_no_ratio_validation { exArgs with split := [r1] } fsTrue).2
      (by decide)
    simpa using h

theorem ratMk_eq_div (n : Int) (d : Nat) (h1 : d ≠ 0)
    (h2 : n.natAbs.Coprime d) : (⟨n, d, h1, h2⟩ : ℚ) = (n : ℚ) / (d : ℚ) := by
  rw [show (⟨n, d, h1, h2⟩ : ℚ) = Rat.mk' n d h1 h2 from rfl]
  rw [Rat.mk'_eq_divInt]
  norm_num [Rat.divInt_eq_div]

/-- Counterexample for C8 as stated: the ratio pair (0.9, 0.3) is positive
but sums to 1.2, violating the contract the claim says is validated; the
run nevertheless completes without any error. -/
theorem c8_bad_ratios_accepted :
    exceptOkB (mainRun c8args fsTrue).2 = true
    ∧ c8args.split = [r910, r310]
    ∧ r910 = (9 : ℚ)/10 ∧ r310 = (3 : ℚ)/10
    ∧ ¬ ((9 : ℚ)/10 + 3/10 = 1) := by
  refine ⟨rfl, rfl, ?_, ?_, by norm_num⟩
  · have h := ratMk_eq_div 9 10 (by norm_num) (by norm_num)
    simpa using h
  · have h := ratMk_eq_div 3 10 (by norm_num) (by norm_num)
    simpa using h

/-! ## Assignment-phase lemmas (for C5 and C6) -/

theorem dictKeys_map_pair (l : List String) (g : String → String) :
    dictKeys (l.map (fun sub => (sub, g sub))) = l := by
  unfold dictKeys
  simp [List.map_map, Function.comp_def]

theorem mem_dictKeys_dictSet (d : List (String × String)) (k v a : String) :
    a ∈ dictKeys (dictSet d k v) ↔ a ∈ dictKeys d ∨ a = k := by
  unfold dictSet
  by_cases hc : (dictKeys d).contains k = true
  · rw [if_pos hc]
    have hk : k ∈ dictKeys d := List.elem_iff.mp hc
    have hkeys : dictKeys (d.map (fun kv => if kv.1 = k then (k, v) else kv))
        = dictKeys d := by
      unfold dictKeys
      rw [List.map_map]
      apply List.map_congr_left
      intro kv _
      by_cases h : kv.1 = k
      · simp [h]
      · simp [h]
    rw [hkeys]
    constructor
    · exact Or.inl
    · rintro (h | rfl)
      · exact h
      · exact hk
  · rw [if_neg hc]
    unfold dictKeys
    rw [List.map_append]
    simp

theorem mem_dictKeys_dictUpd : ∀ (kvs d : List (String × String)) (a : String),
    a ∈ dictKeys (dictUpd d kvs) ↔ a ∈ dictKeys d ∨ a ∈ dictKeys kvs := by
  intro kvs
  induction kvs with
  | nil => intro d a; simp [dictUpd, dictKeys]
  | cons kv rest ih =>
    intro d a
    rw [show dictUpd d (kv :: rest) = dictUpd (dictSet d kv.1 kv.2) rest from rfl]
    rw [ih, mem_dictKeys_dictSet]
    have hcons : a ∈ dictKeys (kv :: rest) ↔ a = kv.1 ∨ a ∈ dictKeys rest := by
      simp [dictKeys]
    rw [hcons]
    tauto

theorem mem_keys_upd_pairs (d : List (String × String)) (l : List String)
    (g : String → String) (a : String) :
    a ∈ dictKeys (dictUpd d (l.map (fun sub => (sub, g sub))))
      ↔ a ∈ dictKeys d ∨ a ∈ l := by
  rw [mem_dictKeys_dictUpd, dictKeys_map_pair]

theorem train_test_split_mem (files : List String) (r : ℚ) (s : Nat)
    (f : String) :
    (f ∈ (train_test_split files r s).1 ∨ f ∈ (train_test_split files r s).2)
      ↔ f ∈ files := by
  unfold train_test_split
  dsimp only
  constructor
  · rintro (h | h)
    · exact List.mem_rotate.mp (List.mem_of_mem_drop h)
    · exact List.mem_rotate.mp (List.mem_of_mem_take h)
  · intro h
    have h2 : f ∈ files.rotate s := List.mem_rotate.mpr h
    rw [← List.take_append_drop
      (min files.length (ratCeilMulNat r files.length)) (files.rotate s)] at h2
    rcases List.mem_append.mp h2 with h3 | h3
    · exact Or.inr h3
    · exact Or.inl h3

theorem train_test_split_disjoint (files : List String) (r : ℚ) (s : Nat)
    (hnd : files.Nodup) (f : String)
    (h1 : f ∈ (train_test_split files r s).1) :
    f ∉ (train_test_split files r s).2 := by
  unfold train_test_split at h1 ⊢
  dsimp only at h1 ⊢
  intro h2
  have hnd2 : (files.rotate s).Nodup := ((List.rotate_perm files s).symm).nodup hnd
  exact List.disjoint_take_drop hnd2 le_rfl h2 h1

theorem contribsDisjointB_cons (d : Dataset) (rest : List Dataset)
    (h : contribsDisjointB (d :: rest) = true) :
    (∀ f ∈ contribOf d, ∀ e ∈ rest, f ∉ contribOf e)
    ∧ contribsDisjointB rest = true := by
  simp only [contribsDisjointB, Bool.and_eq_true, List.all_eq_true] at h
  refine ⟨?_, h.2⟩
  intro f hf e he hfe
  have h2 := h.1 f hf e he
  rw [Bool.not_eq_true'] at h2
  have h3 : (contribOf e).contains f = true := List.elem_iff.mpr hfe
  rw [h2] at h3
  exact Bool.false_ne_true h3

theorem assignStep_cases (r : ℚ) (s : Nat) (st : Assignment)
    (prevTr : Option (List String)) (ds : Dataset) (st2 : Assignment)
    (p2 : Option (List String))
    (h : assignStep r s st prevTr ds = Except.ok (st2, p2)) :
    (basenameNormpath ds.path ≠ "site_014"
      ∧ st2.trainImages = dictUpd st.trainImages
          (((train_test_split ds.lesionGlob r s).1).map
            (fun sub => (sub, pyJoin ds.path sub)))
      ∧ st2.testImages = dictUpd st.testImages
          (((train_test_split ds.lesionGlob r s).2).map
            (fun sub => (sub, pyJoin ds.path sub)))
      ∧ st2.allLesionFiles = st.allLesionFiles ++ ds.lesionGlob
      ∧ p2 = some (train_test_split ds.lesionGlob r s).1)
    ∨ (basenameNormpath ds.path = "site_014"
      ∧ ∃ trPrev, prevTr = some trPrev
      ∧ st2.trainImages = dictUpd st.trainImages
          (trPrev.map (fun sub => (sub, pyJoin ds.path sub)))
      ∧ st2.testImages = dictUpd st.testImages
          (ds.allowGlob.map (fun sub => (sub, pyJoin ds.path sub)))
      ∧ st2.allLesionFiles = st.allLesionFiles ++ ds.allowGlob
      ∧ p2 = some trPrev) := by
  unfold assignStep at h
  split at h
  · left
    rename_i h14
    cases htts : train_test_split ds.lesionGlob r s with
    | mk tr te =>
      rw [htts] at h
      simp only [Except.ok.injEq, Prod.mk.injEq] at h
      obtain ⟨hst, hp⟩ := h
      subst hst
      exact ⟨h14, rfl, rfl, rfl, hp.symm⟩
  · rename_i h14
    cases hprev : prevTr with
    | none =>
      rw [hprev] at h
      simp at h
    | some trPrev =>
      rw [hprev] at h
      simp only [Except.ok.injEq, Prod.mk.injEq] at h
      obtain ⟨hst, hp⟩ := h
      subst hst
      right
      refine ⟨by simpa using h14, trPrev, rfl, rfl, rfl, rfl, hp.symm⟩

theorem assignLoop_mono (r : ℚ) (s : Nat) : ∀ (datasets : List Dataset)
    (st : Assignment) (prevTr : Option (List String)) (asg : Assignment),
    assignLoop r s st prevTr datasets = Except.ok asg →
    (∀ f, f ∈ dictKeys st.trainImages → f ∈ dictKeys asg.trainImages)
    ∧ (∀ f, f ∈ dictKeys st.testImages → f ∈ dictKeys asg.testImages)
    ∧ (∀ f, f ∈ st.allLesionFiles → f ∈ asg.allLesionFiles) := by
  intro datasets
  induction datasets with
  | nil =>
    intro st prevTr asg h
    simp only [assignLoop, Except.ok.injEq] at h
    subst h
    exact ⟨fun _ hf => hf, fun _ hf => hf, fun _ hf => hf⟩
  | cons ds rest ih =>
    intro st prevTr asg h
    simp only [assignLoop] at h
    cases hstep : assignStep r s st prevTr ds with
    | error e => rw [hstep] at h; exact absurd h (by simp)
    | ok pair =>
      obtain ⟨st2, p2⟩ := pair
      rw [hstep] at h
      obtain ⟨m1, m2, m3⟩ := ih st2 p2 asg h
      rcases assignStep_cases r s st prevTr ds st2 p2 hstep with
        ⟨-, e1, e2, e3, -⟩ | ⟨-, trPrev, -, e1, e2, e3, -⟩ <;>
      · refine ⟨fun f hf => m1 f ?_, fun f hf => m2 f ?_, fun f hf => m3 f ?_⟩
        · rw [e1, mem_keys_upd_pairs]; exact Or.inl hf
        · rw [e2, mem_keys_upd_pairs]; exact Or.inl hf
        · rw [e3]; exact List.mem_append.mpr (Or.inl hf)

theorem assignLoop_bound (r : ℚ) (s : Nat) : ∀ (datasets : List Dataset)
    (st : Assignment) (prevTr : Option (List String)) (asg : Assignment),
    assignLoop r s st prevTr datasets = Except.ok asg → ∀ f,
    (f ∈ dictKeys asg.trainImages → f ∈ dictKeys st.trainImages
        ∨ f ∈ optList prevTr
        ∨ ∃ d ∈ datasets, basenameNormpath d.path ≠ "site_014" ∧ f ∈ d.lesionGlob)
    ∧ (f ∈ dictKeys asg.testImages → f ∈ dictKeys st.testImages
        ∨ ∃ d ∈ datasets, f ∈ contribOf d)
    ∧ (f ∈ asg.allLesionFiles → f ∈ st.allLesionFiles
        ∨ ∃ d ∈ datasets, f ∈ contribOf d) := by
  intro datasets
  induction datasets with
  | nil =>
    intro st prevTr asg h f
    simp only [assignLoop, Except.ok.injEq] at h
    subst h
    exact ⟨fun hf => Or.inl hf, fun hf => Or.inl hf, fun hf => Or.inl hf⟩
  | cons ds rest ih =>
    intro st prevTr asg h f
    simp only [assignLoop] at h
    cases hstep : assignStep r s st prevTr ds with
    | error e => rw [hstep] at h; exact absurd h (by simp)
    | ok pair =>
      obtain ⟨st2, p2⟩ := pair
      rw [hstep] at h
      obtain ⟨b1, b2, b3⟩ := ih st2 p2 asg h f
      rcases assignStep_cases r s st prevTr ds st2 p2 hstep with
        ⟨h14, e1, e2, e3, e4⟩ | ⟨h14, trPrev, eprev, e1, e2, e3, e4⟩
      · have hctr : contribOf ds = ds.lesionGlob := by simp [contribOf, h14]
        refine ⟨fun hf => ?_, fun hf => ?_, fun hf => ?_⟩
        · rcases b1 hf with h2 | h2 | ⟨d, hd, hne, hmem⟩
          · rw [e1, mem_keys_upd_pairs] at h2
            rcases h2 with h3 | h3
            · exact Or.inl h3
            · exact Or.inr (Or.inr ⟨ds, by simp, h14,
                (train_test_split_mem ds.lesionGlob r s f).mp (Or.inl h3)⟩)
          · rw [e4] at h2
            have h3 : f ∈ (train_test_split ds.lesionGlob r s).1 := h2
            exact Or.inr (Or.inr ⟨ds, by simp, h14,
              (train_test_split_mem ds.lesionGlob r s f).mp (Or.inl h3)⟩)
          · exact Or.inr (Or.inr ⟨d, List.mem_cons_of_mem ds hd, hne, hmem⟩)
        · rcases b2 hf with h2 | ⟨d, hd, hmem⟩
          · rw [e2, mem_keys_upd_pairs] at h2
            rcases h2 with h3 | h3
            · exact Or.inl h3
            · refine Or.inr ⟨ds, by simp, ?_⟩
              rw [hctr]
              exact (train_test_split_mem ds.lesionGlob r s f).mp (Or.inr h3)
          · exact Or.inr ⟨d, List.mem_cons_of_mem ds hd, hmem⟩
        · rcases b3 hf with h2 | ⟨d, hd, hmem⟩
          · rw [e3] at h2
            rcases List.mem_append.mp h2 with h3 | h3
            · exact Or.inl h3
            · refine Or.inr ⟨ds, by simp, ?_⟩
              rw [hctr]
              exact h3
          · exact Or.inr ⟨d, List.mem_cons_of_mem ds hd, hmem⟩
      · have hctr : contribOf ds = ds.allowGlob := by simp [contribOf, h14]
        refine ⟨fun hf => ?_, fun hf => ?_, fun hf => ?_⟩
        · rcases b1 hf with h2 | h2 | ⟨d, hd, hne, hmem⟩
          · rw [e1, mem_keys_upd_pairs] at h2
            rcases h2 with h3 | h3
            · exact Or.inl h3
            · rw [eprev]
              exact Or.inr (Or.inl h3)
          · rw [e4] at h2
            rw [eprev]
            exact Or.inr (Or.inl h2)
          · exact Or.inr (Or.inr ⟨d, List.mem_cons_of_mem ds hd, hne, hmem⟩)
        · rcases b2 hf with h2 | ⟨d, hd, hmem⟩
          · rw [e2, mem_keys_upd_pairs] at h2
            rcases h2 with h3 | h3
            · exact Or.inl h3
            · refine Or.inr ⟨ds, by simp, ?_⟩
              rw [hctr]
              exact h3
          · exact Or.inr ⟨d, List.mem_cons_of_mem ds hd, hmem⟩
        · rcases b3 hf with h2 | ⟨d, hd, hmem⟩
          · rw [e3] at h2
            rcases List.mem_append.mp h2 with h3 | h3
            · exact Or.inl h3
            · refine Or.inr ⟨ds, by simp, ?_⟩
              rw [hctr]
              exact h3
          · exact Or.inr ⟨d, List.mem_cons_of_mem ds hd, hmem⟩

theorem assignLoop_allow (r : ℚ) (s : Nat) : ∀ (datasets : List Dataset)
    (st : Assignment) (prevTr : Option (List String)) (asg : Assignment),
    assignLoop r s st prevTr datasets = Except.ok asg →
    ∀ ds ∈ datasets, basenameNormpath ds.path = "site_014" →
    ∀ f ∈ ds.allowGlob, f ∈ dictKeys asg.testImages := by
  intro datasets
  induction datasets with
  | nil => intro st prevTr asg h ds hds; simp at hds
  | cons d0 rest ih =>
    intro st prevTr asg h ds hds h14 f hf
    simp only [assignLoop] at h
    cases hstep : assignStep r s st prevTr d0 with
    | error e => rw [hstep] at h; exact absurd h (by simp)
    | ok pair =>
      obtain ⟨st2, p2⟩ := pair
      rw [hstep] at h
      rcases List.mem_cons.mp hds with rfl | hds2
      · rcases assignStep_cases r s st prevTr ds st2 p2 hstep with
          ⟨hne, -, -, -, -⟩ | ⟨-, trPrev, -, -, e2, -, -⟩
        · exact absurd h14 hne
        · have hmem : f ∈ dictKeys st2.testImages := by
            rw [e2, mem_keys_upd_pairs]
            exact Or.inr hf
          exact (assignLoop_mono r s rest st2 p2 asg h).2.1 f hmem
      · exact ih st2 p2 asg h ds hds2 h14 f hf

set_option maxHeartbeats 1000000 in
theorem assignLoop_partition (r : ℚ) (s : Nat) : ∀ (datasets : List Dataset)
    (st : Assignment) (prevTr : Option (List String)) (asg : Assignment),
    assignLoop r s st prevTr datasets = Except.ok asg →
    contribsDisjointB datasets = true →
    (∀ d ∈ datasets, (contribOf d).Nodup) →
    (∀ f, f ∈ st.allLesionFiles ↔
        (f ∈ dictKeys st.trainImages ∨ f ∈ dictKeys st.testImages)) →
    (∀ f, f ∈ dictKeys st.trainImages → f ∉ dictKeys st.testImages) →
    (∀ f, f ∈ optList prevTr → f ∈ dictKeys st.trainImages) →
    (∀ f, (f ∈ dictKeys st.trainImages ∨ f ∈ dictKeys st.testImages) →
        ∀ d ∈ datasets, f ∉ contribOf d) →
    (∀ f, f ∈ asg.allLesionFiles ↔
        (f ∈ dictKeys asg.trainImages ∨ f ∈ dictKeys asg.testImages))
    ∧ (∀ f, f ∈ dictKeys asg.trainImages → f ∉ dictKeys asg.testImages) := by
  intro datasets
  induction datasets with
  | nil =>
    intro st prevTr asg h _ _ hcov hdisj _ _
    simp only [assignLoop, Except.ok.injEq] at h
    subst h
    exact ⟨hcov, hdisj⟩
  | cons ds rest ih =>
    intro st prevTr asg h hdB hnod hcov hdisj hprev hfut
    simp only [assignLoop] at h
    obtain ⟨hdHead, hdRest⟩ := contribsDisjointB_cons ds rest hdB
    cases hstep : assignStep r s st prevTr ds with
    | error e => rw [hstep] at h; exact absurd h (by simp)
    | ok pair =>
      obtain ⟨st2, p2⟩ := pair
      rw [hstep] at h
      rcases assignStep_cases r s st prevTr ds st2 p2 hstep with
        ⟨h14, e1, e2, e3, e4⟩ | ⟨h14, trPrev, eprev, e1, e2, e3, e4⟩
      · have hctr : contribOf ds = ds.lesionGlob := by simp [contribOf, h14]
        have hnd : ds.lesionGlob.Nodup := by
          have h5 := hnod ds (by simp)
          rwa [hctr] at h5
        refine ih st2 p2 asg h hdRest
          (fun d hd => hnod d (List.mem_cons_of_mem ds hd)) ?_ ?_ ?_ ?_
        · intro f
          rw [e3, e1, e2, List.mem_append, mem_keys_upd_pairs, mem_keys_upd_pairs]
          have hm := train_test_split_mem ds.lesionGlob r s f
          have hc := hcov f
          tauto
        · intro f hf
          rw [e1, mem_keys_upd_pairs] at hf
          rw [e2, mem_keys_upd_pairs]
          rcases hf with h2 | h2
          · rintro (h3 | h3)
            · exact hdisj f h2 h3
            · refine hfut f (Or.inl h2) ds (by simp) ?_
              rw [hctr]
              exact (train_test_split_mem ds.lesionGlob r s f).mp (Or.inr h3)
          · rintro (h3 | h3)
            · refine hfut f (Or.inr h3) ds (by simp) ?_
              rw [hctr]
              exact (train_test_split_mem ds.lesionGlob r s f).mp (Or.inl h2)
            · exact train_test_split_disjoint ds.lesionGlob r s hnd f h2 h3
        · intro f hf
          rw [e4] at hf
          have hf2 : f ∈ (train_test_split ds.lesionGlob r s).1 := hf
          rw [e1, mem_keys_upd_pairs]
          exact Or.inr hf2
        · intro f hf d hd
          rcases hf with h2 | h2
          · rw [e1, mem_keys_upd_pairs] at h2
            rcases h2 with h3 | h3
            · exact hfut f (Or.inl h3) d (List.mem_cons_of_mem ds hd)
            · refine hdHead f ?_ d hd
              rw [hctr]
              exact (train_test_split_mem ds.lesionGlob r s f).mp (Or.inl h3)
          · rw [e2, mem_keys_upd_pairs] at h2
            rcases h2 with h3 | h3
            · exact hfut f (Or.inr h3) d (List.mem_cons_of_mem ds hd)
            · refine hdHead f ?_ d hd
              rw [hctr]
              exact (train_test_split_mem ds.lesionGlob r s f).mp (Or.inr h3)
      · have hctr : contribOf ds = ds.allowGlob := by simp [contribOf, h14]
        have habs : ∀ f, f ∈ dictKeys st2.trainImages
            ↔ f ∈ dictKeys st.trainImages := by
          intro f
          rw [e1, mem_keys_upd_pairs]
          constructor
          · rintro (h2 | h2)
            · exact h2
            · refine hprev f ?_
              rw [eprev]
              exact h2
          · exact Or.inl
        refine ih st2 p2 asg h hdRest
          (fun d hd => hnod d (List.mem_cons_of_mem ds hd)) ?_ ?_ ?_ ?_
        · intro f
          rw [e3, List.mem_append, habs f, e2, mem_keys_upd_pairs]
          have hc := hcov f
          tauto
        · intro f hf
          rw [habs f] at hf
          rw [e2, mem_keys_upd_pairs]
          rintro (h3 | h3)
          · exact hdisj f hf h3
          · refine hfut f (Or.inl hf) ds (by simp) ?_
            rw [hctr]
            exact h3
        · intro f hf
          rw [e4] at hf
          have hf2 : f ∈ trPrev := hf
          rw [habs f]
          refine hprev f ?_
          rw [eprev]
          exact hf2
        · intro f hf d hd
          rcases hf with h2 | h2
          · rw [habs f] at h2
            exact hfut f (Or.inl h2) d (List.mem_cons_of_mem ds hd)
          · rw [e2, mem_keys_upd_pairs] at h2
            rcases h2 with h3 | h3
            · exact hfut f (Or.inr h3) d (List.mem_cons_of_mem ds hd)
            · refine hdHead f ?_ d hd
              rw [hctr]
              exact h3

/-! ## Claim C3 -/

theorem rangeFrom1_succ (n : Nat) :
    rangeFrom1 (n + 1) = rangeFrom1 n ++ [n + 1] := by
  simp [rangeFrom1, List.range_succ]

theorem emitStep_emits (dname : String) (fs : String → Bool) (outDir : String)
    (asg : Assignment) (st : EmitState) (lbl : String)
    (st2 : EmitState) (e : Option RunErr)
    (h : emitStep dname fs outDir asg st lbl = (st2, e))
    (h1 : st.trainEmits = rangeFrom1 st.trainCtr)
    (h2 : st.testEmits = rangeFrom1 st.testCtr) :
    st2.trainEmits = rangeFrom1 st2.trainCtr
    ∧ st2.testEmits = rangeFrom1 st2.testCtr := by
  unfold emitStep at h
  dsimp only at h
  split at h
  · split at h <;>
    · simp only [Prod.mk.injEq] at h
      obtain ⟨h3, -⟩ := h
      subst h3
      simp [h1, h2, rangeFrom1_succ]
  · split at h
    · split at h <;>
      · simp only [Prod.mk.injEq] at h
        obtain ⟨h3, -⟩ := h
        subst h3
        simp [h1, h2, rangeFrom1_succ]
    · simp only [Prod.mk.injEq] at h
      obtain ⟨h3, -⟩ := h
      subst h3
      simp [h1, h2]

theorem emitLoop_emits (dname : String) (fs : String → Bool) (outDir : String)
    (asg : Assignment) : ∀ (files : List String) (st st2 : EmitState),
    emitLoop dname fs outDir asg st files = (st2, none) →
    st.trainEmits = rangeFrom1 st.trainCtr →
    st.testEmits = rangeFrom1 st.testCtr →
    st2.trainEmits = rangeFrom1 st2.trainCtr
    ∧ st2.testEmits = rangeFrom1 st2.testCtr := by
  intro files
  induction files with
  | nil =>
    intro st st2 h h1 h2
    simp only [emitLoop, Prod.mk.injEq] at h
    obtain ⟨h3, -⟩ := h
    subst h3
    exact ⟨h1, h2⟩
  | cons lbl rest ih =>
    intro st st2 h h1 h2
    simp only [emitLoop] at h
    cases hstep : emitStep dname fs outDir asg st lbl with
    | mk st3 e =>
      rw [hstep] at h
      cases e with
      | some e2 => simp at h
      | none =>
        obtain ⟨h3, h4⟩ := emitStep_emits dname fs outDir asg st lbl st3 none hstep h1 h2
        exact ih st3 st2 h h3 h4

/-- Claim C3: in every completed run the per-split counters embedded in the
emitted filenames start at 1 and increment once per emitted subject, so the
counters of each split are exactly the dense sequence 1..N with no gaps and
no duplicates (a subject routed to neither split consumes no counter).  The
missing-companion aspect of the claim fails on the code and is recorded as
a code bug: such a subject consumes a counter and then crashes the run, so
no completed run contains one. -/
theorem c3_dense_counters (args : Args) (fs : String → Bool)
    (evts : List Ev) (out : RunOut)
    (hok : mainRun args fs = (evts, Except.ok out)) :
    out.trainEmits = rangeFrom1 out.trainCtr
    ∧ out.testEmits = rangeFrom1 out.testCtr := by
  unfold mainRun at hok
  split at hok
  · split at hok
    · simp at hok
    · split at hok
      · simp at hok
      · rename_i asg hasg
        dsimp only at hok
        split at hok
        · simp at hok
        · rename_i st hloop
          simp only [Prod.mk.injEq, Except.ok.injEq] at hok
          obtain ⟨-, hout⟩ := hok
          subst hout
          have h := emitLoop_emits args.datasetName fs (outDirOf args) asg
            asg.allLesionFiles ⟨0, 0, [], [], [], [], []⟩ st hloop rfl rfl
          exact ⟨h.1, h.2⟩
  · simp at hok

/-- Witness for C3: the completed two-subject run over the `site_003`
source has train counters `[1]` and test counters `[1]`, both dense from
1. -/
theorem c3_dense_counters_w :
    (getRunOut emptyRunOut (mainRun exArgs fsTrue).2).trainEmits
      = rangeFrom1 (getRunOut emptyRunOut (mainRun exArgs fsTrue).2).trainCtr
    ∧ (getRunOut emptyRunOut (mainRun exArgs fsTrue).2).testEmits
      = rangeFrom1 (getRunOut emptyRunOut (mainRun exArgs fsTrue).2).testCtr :=
  c3_dense_counters exArgs fsTrue (mainRun exArgs fsTrue).1
    (getRunOut emptyRunOut (mainRun exArgs fsTrue).2) rfl

/-! ## Claim C6 -/

/-- Claim C6: the train and test key sets produced by the assignment phase
are disjoint, and their union is exactly the set of discovered subject
files (`all_lesion_files`).  Nothing is ever subtracted for
missing-companion-file errors at this stage: such errors strike later,
during emission, and crash the run (claim C2), so in every completed run
the excluded set is empty and the stated equality holds exactly.
Hypotheses: the sources hold pairwise-distinct file sets and each source
enumeration is duplicate-free — true of distinct directory trees. -/
theorem c6_partition (r : ℚ) (s : Nat) (datasets : List Dataset)
    (asg : Assignment)
    (hok : assignPhase r s datasets = Except.ok asg)
    (hdisj : contribsDisjointB datasets = true)
    (hnodup : ∀ d ∈ datasets, (contribOf d).Nodup) :
    (∀ f, f ∈ asg.allLesionFiles ↔
        (f ∈ dictKeys asg.trainImages ∨ f ∈ dictKeys asg.testImages))
    ∧ (∀ f, f ∈ dictKeys asg.trainImages → f ∉ dictKeys asg.testImages) := by
  refine assignLoop_partition r s datasets ⟨[], [], []⟩ none asg hok hdisj hnodup
    ?_ ?_ ?_ ?_
  · intro f; simp [dictKeys]
  · intro f hf; simp [dictKeys] at hf
  · intro f hf; simp [optList] at hf
  · intro f hf
    rcases hf with h | h <;> simp [dictKeys] at h

/-- Witness for C6: in the concrete two-source assignment (site_003 with
two subjects, site_014 with one allow-listed file), a discovered subject
file lands in the train keys or the test keys. -/
theorem c6_partition_w :
    "/d/site_003/derivatives/labels/sub-a/anat/sub-a_T2w_lesion.nii.gz"
      ∈ dictKeys (getAssignment emptyAssignment
          (assignPhase r15 42 [exDs3, exDs14])).trainImages
    ∨ "/d/site_003/derivatives/labels/sub-a/anat/sub-a_T2w_lesion.nii.gz"
      ∈ dictKeys (getAssignment emptyAssignment
          (assignPhase r15 42 [exDs3, exDs14])).testImages :=
  ((c6_partition r15 42 [exDs3, exDs14]
      (getAssignment emptyAssignment (assignPhase r15 42 [exDs3, exDs14]))
      rfl (by decide) (by decide)).1 _).mp (by decide)

/-! ## Claim C5 -/

/-- Claim C5 (corrected): for a dataset whose directory basename is
`site_014`, the hard-coded allow-list is always routed to the test set
(whatever the split ratio `r`), and such a file never lands in the train
set provided no other (randomized) source holds the same file; but the
remaining subjects of that source do NOT follow the randomized split — a
`site_014` lesion file outside the allow-list (and outside every other
source) is excluded from the conversion entirely: it is never discovered
and lands in neither split. -/
theorem c5_override_routing (r : ℚ) (s : Nat) (datasets : List Dataset)
    (asg : Assignment)
    (hok : assignPhase r s datasets = Except.ok asg)
    (ds : Dataset) (hds : ds ∈ datasets)
    (h14 : basenameNormpath ds.path = "site_014") :
    (∀ f ∈ ds.allowGlob, f ∈ dictKeys asg.testImages)
    ∧ (∀ f ∈ ds.allowGlob,
        (∀ d ∈ datasets, basenameNormpath d.path ≠ "site_014" → f ∉ d.lesionGlob) →
        f ∉ dictKeys asg.trainImages)
    ∧ (∀ f, (∀ d ∈ datasets, f ∉ contribOf d) →
        f ∉ asg.allLesionFiles ∧ f ∉ dictKeys asg.trainImages
          ∧ f ∉ dictKeys asg.testImages) := by
  refine ⟨?_, ?_, ?_⟩
  · exact fun f hf =>
      assignLoop_allow r s datasets ⟨[], [], []⟩ none asg hok ds hds h14 f hf
  · intro f _ hno hmem
    have hb := (assignLoop_bound r s datasets ⟨[], [], []⟩ none asg hok f).1 hmem
    rcases hb with h | h | ⟨d, hd, hne, hmem2⟩
    · simp [dictKeys] at h
    · simp [optList] at h
    · exact hno d hd hne hmem2
  · intro f hno
    have hb := assignLoop_bound r s datasets ⟨[], [], []⟩ none asg hok f
    refine ⟨fun hm => ?_, fun hm => ?_, fun hm => ?_⟩
    · rcases hb.2.2 hm with h | ⟨d, hd, hmem⟩
      · simp at h
      · exact hno d hd hmem
    · rcases hb.1 hm with h | h | ⟨d, hd, hne, hmem⟩
      · simp [dictKeys] at h
      · simp [optList] at h
      · refine hno d hd ?_
        simpa [contribOf, hne] using hmem
    · rcases hb.2.1 hm with h | ⟨d, hd, hmem⟩
      · simp [dictKeys] at h
      · exact hno d hd hmem

/-- Witness for C5: in the concrete two-source assignment the allow-listed
`site_014` file is in the test keys. -/
theorem c5_override_routing_w :
    "/d/site_014/sub-que002/anat/sub-que002_acq-sagittal_run-01_T2w.nii.gz"
      ∈ dictKeys (getAssignment emptyAssignment
          (assignPhase r15 42 [exDs3, exDs14])).testImages :=
  (c5_override_routing r15 42 [exDs3, exDs14]
      (getAssignment emptyAssignment (assignPhase r15 42 [exDs3, exDs14]))
      rfl exDs14 (by decide) (by decide)).1 _ (by decide)

/-- Counterexample for C5 as stated: the `site_014` source holds a
discovered-pattern `_lesion` file outside the hard-coded allow-list; the
claim says the remaining subjects of that source follow the randomized
split, but the file ends up in neither the train keys nor the test keys
(nor among the discovered files): the `site_014` branch never enumerates
`*_lesion.nii.gz` at all. -/
theorem c5_remaining_subjects_dropped :
    "/d/site_014/derivatives/labels/sub-que003/anat/sub-que003_acq-sagittal_run-01_T2w_lesion.nii.gz"
      ∈ exDs14.lesionGlob
    ∧ "/d/site_014/derivatives/labels/sub-que003/anat/sub-que003_acq-sagittal_run-01_T2w_lesion.nii.gz"
      ∉ exDs14.allowGlob
    ∧ "/d/site_014/derivatives/labels/sub-que003/anat/sub-que003_acq-sagittal_run-01_T2w_lesion.nii.gz"
      ∉ dictKeys (getAssignment emptyAssignment
          (assignPhase r15 42 [exDs3, exDs14])).trainImages
    ∧ "/d/site_014/derivatives/labels/sub-que003/anat/sub-que003_acq-sagittal_run-01_T2w_lesion.nii.gz"
      ∉ dictKeys (getAssignment emptyAssignment
          (assignPhase r15 42 [exDs3, exDs14])).testImages
    ∧ "/d/site_014/derivatives/labels/sub-que003/anat/sub-que003_acq-sagittal_run-01_T2w_lesion.nii.gz"
      ∉ (getAssignment emptyAssignment
          (assignPhase r15 42 [exDs3, exDs14])).allLesionFiles := by
  refine ⟨by decide, by decide, by decide, by decide, by decide⟩

/-! ## Frame lemmas (for C10) -/

theorem isPrefixList_refl (p : List Char) : isPrefixList p p = true :=
  (isPrefixList_iff p p).mpr ⟨[], (List.append_nil p).symm⟩

theorem isPrefixList_self_append (p q : String) :
    isPrefixList p.data ((p ++ q)).data = true := by
  rw [String.data_append]
  exact isPrefixList_append _ _

theorem pyJoin_eq (a b : String) (hb : isPrefixList ['/'] b.data = false) :
    pyJoin a b = a ++ ("/" ++ b) := by
  simp [pyJoin, hb]

theorem prefix_join1 (outDir b : String)
    (hb : isPrefixList ['/'] b.data = false) :
    isPrefixList outDir.data ((pyJoin outDir b)).data = true := by
  rw [pyJoin_eq _ _ hb, String.data_append]
  exact isPrefixList_append _ _

theorem prefix_join2 (outDir subdir fname : String)
    (h1 : isPrefixList ['/'] subdir.data = false)
    (h2 : isPrefixList ['/'] fname.data = false) :
    isPrefixList outDir.data ((pyJoin (pyJoin outDir subdir) fname)).data
      = true := by
  rw [pyJoin_eq _ _ h2, pyJoin_eq _ _ h1]
  rw [String.data_append, String.data_append, List.append_assoc]
  exact isPrefixList_append _ _

theorem noSlash_append_left (a b : String)
    (ha : isPrefixList ['/'] a.data = false) (hane : a.data ≠ []) :
    isPrefixList ['/'] ((a ++ b)).data = false ∧ ((a ++ b)).data ≠ [] := by
  rw [String.data_append]
  cases h : a.data with
  | nil => exact absurd h hane
  | cons c cs =>
    rw [h] at ha
    constructor
    · simp only [isPrefixList, List.cons_append] at ha ⊢
      simpa using (by simpa using ha : ('/' == c) = false)
    · simp

theorem noSlash_under (dname : String)
    (h : isPrefixList ['/'] dname.data = false) :
    isPrefixList ['/'] ((dname ++ "_")).data = false
    ∧ ((dname ++ "_")).data ≠ [] := by
  rw [String.data_append]
  cases hd : dname.data with
  | nil => exact ⟨by simp [isPrefixList], by simp⟩
  | cons c cs =>
    rw [hd] at h
    constructor
    · simp only [isPrefixList, List.cons_append] at h ⊢
      simpa using (by simpa using h : ('/' == c) = false)
    · simp

theorem noSlash_base_append (dname sub ctr tail : String)
    (hname : isPrefixList ['/'] dname.data = false) :
    isPrefixList ['/'] ((dname ++ "_" ++ sub ++ "_" ++ ctr ++ tail)).data
      = false := by
  have h1 := noSlash_under dname hname
  have h2 := noSlash_append_left (dname ++ "_") sub h1.1 h1.2
  have h3 := noSlash_append_left (dname ++ "_" ++ sub) "_" h2.1 h2.2
  have h4 := noSlash_append_left (dname ++ "_" ++ sub ++ "_") ctr h3.1 h3.2
  exact (noSlash_append_left (dname ++ "_" ++ sub ++ "_" ++ ctr) tail
    h4.1 h4.2).1

theorem gmcEvents_cases (fs : String → Bool) (lbl subName : String)
    (gevs : List Ev) (res : Option String)
    (h : gmcEvents fs lbl subName = (gevs, res)) :
    (gevs = [Ev.fwrite (pyReplace lbl "_lesion" "_seg-lesion")]
      ∧ res = some (pyReplace lbl "_lesion" "_seg-lesion"))
    ∨ (gevs = [Ev.logMsg (LogTag.missingSeg subName)] ∧ res = none) := by
  unfold gmcEvents at h
  dsimp only at h
  split at h <;>
    simp only [Prod.mk.injEq] at h
  · exact Or.inl ⟨h.1.symm, h.2.symm⟩
  · exact Or.inr ⟨h.1.symm, h.2.symm⟩

theorem emitStep_evs_mono (dname : String) (fs : String → Bool)
    (outDir : String) (asg : Assignment) (st : EmitState) (lbl : String)
    (st2 : EmitState) (e : Option RunErr)
    (h : emitStep dname fs outDir asg st lbl = (st2, e)) :
    ∀ ev ∈ st.evs, ev ∈ st2.evs := by
  unfold emitStep at h
  dsimp only at h
  split at h
  · split at h <;>
    · simp only [Prod.mk.injEq] at h
      obtain ⟨h3, -⟩ := h
      subst h3
      intro ev hev
      simp [hev]
  · split at h
    · split at h <;>
      · simp only [Prod.mk.injEq] at h
        obtain ⟨h3, -⟩ := h
        subst h3
        intro ev hev
        simp [hev]
    · simp only [Prod.mk.injEq] at h
      obtain ⟨h3, -⟩ := h
      subst h3
      intro ev hev
      simp [hev]

theorem emitLoop_evs_mono (dname : String) (fs : String → Bool)
    (outDir : String) (asg : Assignment) : ∀ (files : List String)
    (st st2 : EmitState) (e : Option RunErr),
    emitLoop dname fs outDir asg st files = (st2, e) →
    ∀ ev ∈ st.evs, ev ∈ st2.evs := by
  intro files
  induction files with
  | nil =>
    intro st st2 e h
    simp only [emitLoop, Prod.mk.injEq] at h
    obtain ⟨h3, -⟩ := h
    subst h3
    exact fun ev hev => hev
  | cons lbl rest ih =>
    intro st st2 e h
    simp only [emitLoop] at h
    cases hstep : emitStep dname fs outDir asg st lbl with
    | mk st3 e2 =>
      rw [hstep] at h
      have hm := emitStep_evs_mono dname fs outDir asg st lbl st3 e2 hstep
      cases e2 with
      | some e3 =>
        simp only [Prod.mk.injEq] at h
        obtain ⟨h4, -⟩ := h
        subst h4
        exact hm
      | none =>
        exact fun ev hev => ih st3 st2 e h ev (hm ev hev)

theorem goodWrite_dest (outDir : String) (allRef : List String)
    (sub fname : String)
    (h1 : isPrefixList ['/'] sub.data = false)
    (h2 : isPrefixList ['/'] fname.data = false) :
    ∀ p, evPath (Ev.fwrite (pyJoin (pyJoin outDir sub) fname)) = some p →
      goodWrite outDir allRef p := by
  intro p hp
  simp only [evPath, Option.some.injEq] at hp
  subst hp
  exact Or.inl (prefix_join2 outDir sub fname h1 h2)

theorem emitStep_frame (dname : String) (fs : String → Bool) (outDir : String)
    (asg : Assignment) (allRef : List String) (st : EmitState) (lbl : String)
    (st2 : EmitState) (e : Option RunErr)
    (hname : isPrefixList ['/'] dname.data = false)
    (hlbl : lbl ∈ allRef)
    (h : emitStep dname fs outDir asg st lbl = (st2, e)) :
    ∀ ev ∈ st2.evs, ev ∈ st.evs ∨
      ∀ p, evPath ev = some p → goodWrite outDir allRef p := by
  unfold emitStep at h
  dsimp only at h
  split at h
  · split at h
    · rename_i gevs heq
      simp only [Prod.mk.injEq] at h
      obtain ⟨h3, -⟩ := h
      subst h3
      intro ev hev
      simp only [List.mem_append, List.mem_cons, List.not_mem_nil,
        or_false] at hev
      rcases hev with (h4 | h4) | h4
      · exact Or.inl h4
      · rcases gmcEvents_cases fs lbl _ gevs none heq with ⟨-, hcon⟩ | ⟨hg, -⟩
        · exact absurd hcon (by simp)
        · right
          rw [hg] at h4
          simp only [List.mem_singleton] at h4
          subst h4
          intro p hp
          simp [evPath] at hp
      · right
        subst h4
        exact goodWrite_dest _ _ _ _ (by decide)
          (noSlash_base_append _ _ _ _ hname)
    · rename_i gevs scf heq
      simp only [Prod.mk.injEq] at h
      obtain ⟨h3, -⟩ := h
      subst h3
      intro ev hev
      simp only [List.mem_append, List.mem_cons, List.not_mem_nil,
        or_false] at hev
      rcases hev with (h4 | h4) | h4 | h4 | h4 | h4 | h4 | h4
      · exact Or.inl h4
      · rcases gmcEvents_cases fs lbl _ gevs (some scf) heq with
          ⟨hg, -⟩ | ⟨-, hcon⟩
        · right
          rw [hg] at h4
          simp only [List.mem_singleton] at h4
          subst h4
          intro p hp
          simp only [evPath, Option.some.injEq] at hp
          subst hp
          exact Or.inr ⟨lbl, hlbl, rfl⟩
        · exact absurd hcon (by simp)
      all_goals
        right
        subst h4
        exact goodWrite_dest _ _ _ _ (by decide)
          (noSlash_base_append _ _ _ _ hname)
  · split at h
    · split at h
      · rename_i gevs heq
        simp only [Prod.mk.injEq] at h
        obtain ⟨h3, -⟩ := h
        subst h3
        intro ev hev
        simp only [List.mem_append, List.mem_cons, List.not_mem_nil,
          or_false] at hev
        rcases hev with (h4 | h4) | h4
        · exact Or.inl h4
        · rcases gmcEvents_cases fs lbl _ gevs none heq with
            ⟨-, hcon⟩ | ⟨hg, -⟩
          · exact absurd hcon (by simp)
          · right
            rw [hg] at h4
            simp only [List.mem_singleton] at h4
            subst h4
            intro p hp
            simp [evPath] at hp
        · right
          subst h4
          exact goodWrite_dest _ _ _ _
            ((noSlash_append_left _ _ (by decide) (by decide)).1)
            (noSlash_base_append _ _ _ _ hname)
      · rename_i gevs scf heq
        simp only [Prod.mk.injEq] at h
        obtain ⟨h3, -⟩ := h
        subst h3
        intro ev hev
        simp only [List.mem_append, List.mem_cons, List.not_mem_nil,
          or_false] at hev
        rcases hev with (h4 | h4) | h4 | h4 | h4 | h4 | h4 | h4
        · exact Or.inl h4
        · rcases gmcEvents_cases fs lbl _ gevs (some scf) heq with
            ⟨hg, -⟩ | ⟨-, hcon⟩
          · right
            rw [hg] at h4
            simp only [List.mem_singleton] at h4
            subst h4
            intro p hp
            simp only [evPath, Option.some.injEq] at hp
            subst hp
            exact Or.inr ⟨lbl, hlbl, rfl⟩
          · exact absurd hcon (by simp)
        all_goals
          right
          subst h4
          exact goodWrite_dest _ _ _ _
            ((noSlash_append_left _ _ (by decide) (by decide)).1)
            (noSlash_base_append _ _ _ _ hname)
    · simp only [Prod.mk.injEq] at h
      obtain ⟨h3, -⟩ := h
      subst h3
      intro ev hev
      simp only [List.mem_append, List.mem_cons, List.not_mem_nil,
        or_false] at hev
      rcases hev with h4 | h4
      · exact Or.inl h4
      · right
        subst h4
        intro p hp
        simp [evPath] at hp

theorem emitLoop_frame (dname : String) (fs : String → Bool) (outDir : String)
    (asg : Assignment) (allRef : List String)
    (hname : isPrefixList ['/'] dname.data = false) :
    ∀ (files : List String) (st st2 : EmitState) (e : Option RunErr),
    emitLoop dname fs outDir asg st files = (st2, e) →
    (∀ lbl ∈ files, lbl ∈ allRef) →
    (∀ ev ∈ st.evs, ∀ p, evPath ev = some p → goodWrite outDir allRef p) →
    ∀ ev ∈ st2.evs, ∀ p, evPath ev = some p → goodWrite outDir allRef p := by
  intro files
  induction files with
  | nil =>
    intro st st2 e h _ hst
    simp only [emitLoop, Prod.mk.injEq] at h
    obtain ⟨h3, -⟩ := h
    subst h3
    exact hst
  | cons lbl rest ih =>
    intro st st2 e h hsub hst
    simp only [emitLoop] at h
    cases hstep : emitStep dname fs outDir asg st lbl with
    | mk st3 e2 =>
      rw [hstep] at h
      have hst3 : ∀ ev ∈ st3.evs, ∀ p, evPath ev = some p →
          goodWrite outDir allRef p := by
        intro ev hev
        rcases emitStep_frame dname fs outDir asg allRef st lbl st3 e2 hname
            (hsub lbl (by simp)) hstep ev hev with h4 | h4
        · exact hst ev h4
        · exact h4
      cases e2 with
      | some e3 =>
        simp only [Prod.mk.injEq] at h
        obtain ⟨h4, -⟩ := h
        subst h4
        exact hst3
      | none =>
        exact ih st3 st2 e h (fun l hl => hsub l (by simp [hl])) hst3

theorem emitLoop_writes_fused (dname : String) (fs : String → Bool)
    (outDir : String) (asg : Assignment) : ∀ (files : List String)
    (st st2 : EmitState),
    emitLoop dname fs outDir asg st files = (st2, none) →
    ∀ lbl ∈ files,
      (lbl ∈ dictKeys asg.trainImages ∨ lbl ∈ dictKeys asg.testImages) →
      Ev.fwrite (pyReplace lbl "_lesion" "_seg-lesion") ∈ st2.evs := by
  intro files
  induction files with
  | nil => intro st st2 h lbl hl; simp at hl
  | cons lbl0 rest ih =>
    intro st st2 h lbl hl hkeys
    simp only [emitLoop] at h
    cases hstep : emitStep dname fs outDir asg st lbl0 with
    | mk st3 e2 =>
      rw [hstep] at h
      cases e2 with
      | some e3 => simp at h
      | none =>
        rcases List.mem_cons.mp hl with rfl | hl2
        · -- the head subject: its step succeeded, so the fused write is in
          have hmem : Ev.fwrite (pyReplace lbl "_lesion" "_seg-lesion")
              ∈ st3.evs := by
            unfold emitStep at hstep
            dsimp only at hstep
            split at hstep
            · split at hstep
              · simp only [Prod.mk.injEq] at hstep
                exact absurd hstep.2 (by simp)
              · rename_i gevs scf heq
                simp only [Prod.mk.injEq] at hstep
                obtain ⟨h3, -⟩ := hstep
                subst h3
                rcases gmcEvents_cases fs lbl _ gevs (some scf) heq with
                  ⟨hg, -⟩ | ⟨-, hcon⟩
                · simp [hg]
                · exact absurd hcon (by simp)
            · split at hstep
              · split at hstep
                · simp only [Prod.mk.injEq] at hstep
                  exact absurd hstep.2 (by simp)
                · rename_i gevs scf heq
                  simp only [Prod.mk.injEq] at hstep
                  obtain ⟨h3, -⟩ := hstep
                  subst h3
                  rcases gmcEvents_cases fs lbl _ gevs (some scf) heq with
                    ⟨hg, -⟩ | ⟨-, hcon⟩
                  · simp [hg]
                  · exact absurd hcon (by simp)
              · rename_i htr hte
                exfalso
                rcases hkeys with hk | hk
                · exact htr (by simpa using List.elem_iff.mpr hk)
                · exact hte (by simpa using List.elem_iff.mpr hk)
          exact emitLoop_evs_mono dname fs outDir asg rest st3 st2 none h _ hmem
        · exact ih st3 st2 h lbl hl2 hkeys

theorem preLoopLogs_mem (datasets : List Dataset) (sites : List String)
    (ev : Ev) (h : ev ∈ preLoopLogs datasets sites) :
    ev = Ev.logMsg LogTag.info := by
  simp only [preLoopLogs, List.mem_append, List.mem_cons, List.not_mem_nil,
    or_false, List.mem_map] at h
  aesop

theorem siteDirEvents_mem (outDir : String) (sites : List String) (ev : Ev)
    (h : ev ∈ siteDirEvents outDir sites) :
    ∃ s, ev = Ev.mkdir (pyJoin outDir ("imagesTs_" ++ s))
      ∨ ev = Ev.mkdir (pyJoin outDir ("labelsTs_" ++ s)) := by
  simp only [siteDirEvents, List.mem_flatMap, List.mem_cons, List.not_mem_nil,
    or_false] at h
  obtain ⟨s, -, h⟩ := h
  exact ⟨s, h⟩

/-! ## Claim C10 -/

/-- Claim C10 (corrected): for every discovered subject routed into either
split, a completed run writes the fused label at the path obtained from
the subject label path by replacing `_lesion` with `_seg-lesion`
(overwriting anything there), and every path the run touches is either
under the seed-suffixed output root or exactly one of those `_seg-lesion`
paths — they are the only writes into the sources.  The claim is corrected
in one respect: for `site_014` allow-list files, whose names contain no
`_lesion`, the replacement is the identity, so the "new file" is the input
file itself, which is overwritten in place (see the counterexample). -/
theorem c10_fused_write_frame (args : Args) (fs : String → Bool)
    (evts : List Ev) (out : RunOut)
    (hok : mainRun args fs = (evts, Except.ok out))
    (hname : isPrefixList ['/'] args.datasetName.data = false) :
    (∀ lbl ∈ out.allLesionFiles,
        (lbl ∈ dictKeys out.trainImages ∨ lbl ∈ dictKeys out.testImages) →
        Ev.fwrite (pyReplace lbl "_lesion" "_seg-lesion") ∈ evts)
    ∧ (∀ ev ∈ evts, ∀ p, evPath ev = some p →
        goodWrite (outDirOf args) out.allLesionFiles p) := by
  unfold mainRun at hok
  split at hok
  · split at hok
    · simp at hok
    · split at hok
      · simp at hok
      · rename_i asg hasg
        dsimp only at hok
        split at hok
        · simp at hok
        · rename_i st hloop
          simp only [Prod.mk.injEq, Except.ok.injEq] at hok
          obtain ⟨hevts, hout⟩ := hok
          subst hout
          subst hevts
          constructor
          · intro lbl hl hkeys
            have hw := emitLoop_writes_fused args.datasetName fs (outDirOf args)
              asg asg.allLesionFiles ⟨0, 0, [], [], [], [], []⟩ st hloop lbl hl
              hkeys
            simp only [List.mem_append]
            tauto
          · intro ev hev p hp
            have hstevs : ∀ ev2 ∈ st.evs, ∀ p2, evPath ev2 = some p2 →
                goodWrite (outDirOf args) asg.allLesionFiles p2 := by
              refine emitLoop_frame args.datasetName fs (outDirOf args) asg
                asg.allLesionFiles hname asg.allLesionFiles
                ⟨0, 0, [], [], [], [], []⟩ st none hloop (fun l hl => hl) ?_
              intro ev2 hev2
              simp at hev2
            rcases List.mem_append.mp hev with h1 | hyj
            swap
            · simp only [List.mem_cons, List.not_mem_nil, or_false] at hyj
              rcases hyj with rfl | rfl
              · simp only [evPath, Option.some.injEq] at hp
                subst hp
                have hy := noSlash_append_left "train_test_split_seed"
                  (toString args.seed) (by decide) (by decide)
                have hy2 := noSlash_append_left _ ".yaml" hy.1 hy.2
                exact Or.inl (prefix_join1 _ _ hy2.1)
              · simp only [evPath, Option.some.injEq] at hp
                subst hp
                exact Or.inl (prefix_join1 _ _ (by decide))
            rcases List.mem_append.mp h1 with h2 | hlog1
            swap
            · simp only [List.mem_cons, List.not_mem_nil, or_false] at hlog1
              subst hlog1
              simp [evPath] at hp
            rcases List.mem_append.mp h2 with h3 | hst
            swap
            · exact hstevs ev hst p hp
            rcases List.mem_append.mp h3 with h4 | hlog2
            swap
            · have hl2 := preLoopLogs_mem _ _ _ hlog2
              subst hl2
              simp [evPath] at hp
            rcases List.mem_append.mp h4 with h0 | hsite
            swap
            · obtain ⟨s, rfl | rfl⟩ := siteDirEvents_mem _ _ _ hsite
              · simp only [evPath, Option.some.injEq] at hp
                subst hp
                exact Or.inl (prefix_join1 _ _
                  ((noSlash_append_left "imagesTs_" s (by decide) (by decide)).1))
              · simp only [evPath, Option.some.injEq] at hp
                subst hp
                exact Or.inl (prefix_join1 _ _
                  ((noSlash_append_left "labelsTs_" s (by decide) (by decide)).1))
            · simp only [initialEvents, List.mem_cons, List.not_mem_nil,
                or_false] at h0
              rcases h0 with rfl | rfl | rfl | rfl
              · simp only [evPath, Option.some.injEq] at hp
                subst hp
                exact Or.inl (isPrefixList_refl _)
              · simp only [evPath, Option.some.injEq] at hp
                subst hp
                exact Or.inl (prefix_join1 _ _ (by decide))
              · simp only [evPath, Option.some.injEq] at hp
                subst hp
                exact Or.inl (prefix_join1 _ _ (by decide))
              · simp only [evPath, Option.some.injEq] at hp
                subst hp
                exact Or.inl (prefix_join1 _ _ (by decide))
  · simp at hok

/-- Witness for C10: in the completed concrete run the fused label of the
test subject is written at its `_seg-lesion` companion path. -/
theorem c10_fused_write_frame_w :
    Ev.fwrite (pyReplace
        "/d/site_003/derivatives/labels/sub-a/anat/sub-a_T2w_lesion.nii.gz"
        "_lesion" "_seg-lesion")
      ∈ (mainRun exArgs fsTrue).1 :=
  (c10_fused_write_frame exArgs fsTrue (mainRun exArgs fsTrue).1
      (getRunOut emptyRunOut (mainRun exArgs fsTrue).2) rfl (by decide)).1
    _ (by decide) (Or.inr (by decide))

/-- Counterexample for C10 as stated: the `site_014` allow-list file has no
`_lesion` in its name, so the `_seg-lesion` save path equals the input
path itself; the run writes (overwrites) that pre-existing source input
file in place — not a new file in a derivatives tree. -/
theorem c10_overwrites_source_input :
    Ev.fwrite "/d/site_014/sub-que002/anat/sub-que002_acq-sagittal_run-01_T2w.nii.gz"
      ∈ (mainRun c10args fsTrue).1
    ∧ pyReplace "/d/site_014/sub-que002/anat/sub-que002_acq-sagittal_run-01_T2w.nii.gz"
        "_lesion" "_seg-lesion"
      = "/d/site_014/sub-que002/anat/sub-que002_acq-sagittal_run-01_T2w.nii.gz"
    ∧ "/d/site_014/sub-que002/anat/sub-que002_acq-sagittal_run-01_T2w.nii.gz"
      ∈ exDs14.allowGlob
    ∧ isPrefixList (outDirOf c10args).data
        "/d/site_014/sub-que002/anat/sub-que002_acq-sagittal_run-01_T2w.nii.gz".data
      = false := by
  refine ⟨by decide, by decide, by decide, by decide⟩

end SciLesionSeg
